import Mathlib

/-!
Verification development for the ASPA authorization table of rtrlib.

The repository ships the declarations and contract documentation of the
ASPA update engine in `src/rtrlib/aspa/aspa_private.h`; the function
bodies themselves are not part of the source tree.  Following the
documented contract, this file embeds the data model (records, sorted
record arrays, the table's socket-to-array store), the operation batch
planner (stable sort plus conflict resolution), the swap-in executor
(compute/apply/finish), the in-place executor (update/undo) and the hop
verifier, and proves the documented properties about them.
-/

/-- Status codes returned by ASPA table operations, mirroring
`enum aspa_status` (`ASPA_SUCCESS`, `ASPA_ERROR`, `ASPA_RECORD_NOT_FOUND`,
`ASPA_DUPLICATE_RECORD`). -/
inductive aspa_status where
  | success
  | error
  | record_not_found
  | duplicate_record
  deriving DecidableEq

/-- Operation kinds, mirroring `enum aspa_operation_type` (`ASPA_ADD`,
`ASPA_REMOVE`). -/
inductive aspa_operation_type where
  | add
  | remove
  deriving DecidableEq

/-- An ASPA record: a customer ASN together with its ordered provider set,
mirroring `struct aspa_record` (the `provider_count` field is the length of
the provider list). -/
structure aspa_record where
  customer_asn : Nat
  provider_asns : List Nat
  deriving DecidableEq

/-- An update operation, mirroring `struct aspa_update_operation` from
`aspa_private.h` (lines 133-138).  The C struct declares exactly the fields
`index`, `type`, `record` and `is_no_op`; in particular it has no `skip`
member even though its doc comment documents one. -/
structure aspa_update_operation where
  index : Nat
  type : aspa_operation_type
  record : aspa_record
  is_no_op : Bool
  deriving DecidableEq

/-- The backing sequence of an ASPA array (`struct aspa_array`): an ordered
list of records. -/
abbrev aspa_array := List aspa_record

/-- The Array invariant: records are strictly increasing (hence unique) by
customer ASN. -/
def aspa_array_sorted (arr : aspa_array) : Prop :=
  List.Pairwise (fun a b => a.customer_asn < b.customer_asn) arr

instance aspa_array_sorted_decidable (arr : aspa_array) : Decidable (aspa_array_sorted arr) :=
  List.instDecidablePairwise arr

/-- Look up the record with the given customer ASN in an array. -/
def aspa_array_search (arr : aspa_array) (cas : Nat) : Option aspa_record :=
  arr.find? (fun r => r.customer_asn == cas)

/-- Insert a record into an array at its sorted position. -/
def aspa_array_insert (r : aspa_record) : aspa_array → aspa_array
  | [] => [r]
  | x :: rest =>
    if r.customer_asn ≤ x.customer_asn then r :: x :: rest
    else x :: aspa_array_insert r rest

/-- Delete the first record with the given customer ASN from an array
(delete-and-shift). -/
def aspa_array_remove (cas : Nat) : aspa_array → aspa_array
  | [] => []
  | x :: rest => if x.customer_asn = cas then rest else x :: aspa_array_remove cas rest

/-- Ordering of operations by customer ASN, the key of the planner's stable
sort. -/
def aspa_op_le (a b : aspa_update_operation) : Prop :=
  a.record.customer_asn ≤ b.record.customer_asn

/-- Strict ordering of operations by customer ASN. -/
def aspa_op_lt (a b : aspa_update_operation) : Prop :=
  a.record.customer_asn < b.record.customer_asn

instance aspa_op_le_decidable : DecidableRel aspa_op_le :=
  fun a b => Nat.decLe a.record.customer_asn b.record.customer_asn

instance aspa_op_le_total : IsTotal aspa_update_operation aspa_op_le :=
  ⟨fun a b => Nat.le_total a.record.customer_asn b.record.customer_asn⟩

instance aspa_op_le_trans : IsTrans aspa_update_operation aspa_op_le :=
  ⟨fun _ _ _ => Nat.le_trans⟩

/-- Modelled from the spec: both update mechanisms "first sort the array of
'add' and 'remove' operations by their customer ASN stably"; the stable
insertion sort keyed by customer ASN. -/
def aspa_sort_ops (ops : List aspa_update_operation) : List aspa_update_operation :=
  List.insertionSort aspa_op_le ops

/-- Mark an operation as one half of a complementary add/remove no-op pair. -/
def aspa_mark_no_op (o : aspa_update_operation) : aspa_update_operation :=
  { o with is_no_op := true }

/-- Modelled from the spec: the planner's single walk over the sorted batch
(the bodies of `aspa_table_compute_update` / `aspa_table_update` are not in
the source tree).  Neighbouring operations sharing a customer ASN are
resolved: two adds fail with `duplicate_record` at the second operation
(case 2), two removes fail with `record_not_found` at the second operation
(case 4), and a complementary add/remove pair is marked `is_no_op` and
skipped (case 5). -/
def aspa_resolve_ops :
    List aspa_update_operation →
    Except (aspa_status × aspa_update_operation) (List aspa_update_operation)
  | [] => .ok []
  | [o] => .ok [o]
  | a :: b :: rest =>
    if a.record.customer_asn = b.record.customer_asn then
      if a.type = b.type then
        .error (if a.type = .add then aspa_status.duplicate_record else aspa_status.record_not_found, b)
      else
        (aspa_resolve_ops rest).map
          (fun out => aspa_mark_no_op a :: aspa_mark_no_op b :: out)
    else
      (aspa_resolve_ops (b :: rest)).map (fun out => a :: out)

/-- The operations of a canonical batch that survive case resolution (those
not cancelled as halves of complementary no-op pairs). -/
def aspa_surviving (ops : List aspa_update_operation) : List aspa_update_operation :=
  ops.filter (fun o => !o.is_no_op)

/-- Whether an operation is a remove operation. -/
def aspa_is_remove (o : aspa_update_operation) : Bool :=
  match o.type with
  | .remove => true
  | .add => false

/-- Whether an operation is an add operation. -/
def aspa_is_add (o : aspa_update_operation) : Bool :=
  match o.type with
  | .add => true
  | .remove => false

/-- The customer ASNs targeted by the surviving remove operations of a
canonical batch. -/
def aspa_removed_asns (ops : List aspa_update_operation) : List Nat :=
  ((aspa_surviving ops).filter aspa_is_remove).map (fun o => o.record.customer_asn)

/-- The records carried by the surviving add operations of a canonical
batch. -/
def aspa_added_records (ops : List aspa_update_operation) : List aspa_record :=
  ((aspa_surviving ops).filter aspa_is_add).map (fun o => o.record)

instance except_decidable_eq {ε α : Type} [DecidableEq ε] [DecidableEq α] :
    DecidableEq (Except ε α) := fun a b =>
  match a, b with
  | .ok x, .ok y => decidable_of_iff (x = y) (by simp)
  | .error x, .error y => decidable_of_iff (x = y) (by simp)
  | .ok _, .error _ => isFalse (by simp)
  | .error _, .ok _ => isFalse (by simp)

/-- Modelled from the spec: the single linear merge pass of the swap-in
executor (`aspa_table_compute_update`'s body is not in the source tree).
A "loop iterating over operations and a nested loop that handles records
from the existing ASPA array with an ASN smaller than the current
operation's ASN": for every operation the existing records with smaller
ASN are copied through, a no-op operation is skipped, an add matching an
existing record fails with `duplicate_record` (case 1), a remove with no
matching record fails with `record_not_found` (case 3), otherwise an add
inserts its record and a remove drops the matching record. -/
def aspa_merge :
    aspa_array → List aspa_update_operation →
    Except (aspa_status × aspa_update_operation) aspa_array
  | arr, [] => .ok arr
  | arr, op :: rest =>
    if op.is_no_op then aspa_merge arr rest
    else
      let less := arr.takeWhile (fun e => e.customer_asn < op.record.customer_asn)
      match arr.dropWhile (fun e => e.customer_asn < op.record.customer_asn), op.type with
      | [], .add => (aspa_merge [] rest).map (fun out => less ++ op.record :: out)
      | [], .remove => .error (aspa_status.record_not_found, op)
      | e :: es, .add =>
        if e.customer_asn = op.record.customer_asn then
          .error (aspa_status.duplicate_record, op)
        else
          (aspa_merge (e :: es) rest).map (fun out => less ++ op.record :: out)
      | e :: es, .remove =>
        if e.customer_asn = op.record.customer_asn then
          (aspa_merge es rest).map (fun out => less ++ out)
        else .error (aspa_status.record_not_found, op)

/-- Modelled from the spec: planning followed by the merge pass; the pure
computation inside `aspa_table_compute_update`, returning the canonical
operation sequence and the newly built array, or the first failure. -/
def aspa_compute_internal (existing : aspa_array) (ops : List aspa_update_operation) :
    Except (aspa_status × aspa_update_operation) (List aspa_update_operation × aspa_array) :=
  match aspa_resolve_ops (aspa_sort_ops ops) with
  | .error e => .error e
  | .ok canonical =>
    match aspa_merge existing canonical with
    | .error e => .error e
    | .ok arr => .ok (canonical, arr)

/-- Look up the array bound to a socket in the table's store list (the
linked list of `aspa_store_node`); a socket with no node holds the empty
array. -/
def aspa_store_list_get : List (Nat × aspa_array) → Nat → aspa_array
  | [], _ => []
  | p :: rest, sock => if p.1 = sock then p.2 else aspa_store_list_get rest sock

/-- Replace (or create) the array bound to a socket in the store list. -/
def aspa_store_list_set : List (Nat × aspa_array) → Nat → aspa_array → List (Nat × aspa_array)
  | [], sock, arr => [(sock, arr)]
  | p :: rest, sock, arr =>
    if p.1 = sock then (sock, arr) :: rest else p :: aspa_store_list_set rest sock arr

/-- The ASPA table: its store binds each socket to its current array,
mirroring the linked list of `aspa_store_node` (sockets are identified by a
number). -/
structure aspa_table where
  store : List (Nat × aspa_array)
  deriving DecidableEq

/-- The published array of a socket. -/
def aspa_store_get (t : aspa_table) (sock : Nat) : aspa_array :=
  aspa_store_list_get t.store sock

/-- The table with the published array of a socket replaced. -/
def aspa_store_set (t : aspa_table) (sock : Nat) (arr : aspa_array) : aspa_table :=
  ⟨aspa_store_list_set t.store sock arr⟩

/-- A computed update, mirroring `struct aspa_update`: the target socket,
the canonical operation sequence, the newly built array (none if
computation failed) and the failed operation, if any. -/
structure aspa_update where
  rtr_socket : Nat
  operations : List aspa_update_operation
  new_array : Option aspa_array
  failed_operation : Option aspa_update_operation
  deriving DecidableEq

/-- Modelled from the spec: `aspa_table_compute_update` (body not in the
source tree).  Computes an update structure from the socket's published
array and the operation batch; "no changes are made to the ASPA table
between calling `aspa_table_compute_update` and `aspa_table_finish_update`",
so the table is returned untouched. -/
def aspa_table_compute_update (t : aspa_table) (sock : Nat)
    (ops : List aspa_update_operation) : aspa_table × aspa_update × aspa_status :=
  match aspa_compute_internal (aspa_store_get t sock) ops with
  | .ok (canonical, arr) => (t, ⟨sock, canonical, some arr, none⟩, .success)
  | .error (s, f) => (t, ⟨sock, aspa_sort_ops ops, none, some f⟩, s)

/-- Modelled from the spec: `aspa_table_apply_update` (body not in the
source tree).  Swaps the newly built array into the table for the update's
socket; an update whose computation failed carries no new array and
publishes nothing. -/
def aspa_table_apply_update (t : aspa_table) (u : aspa_update) : aspa_table :=
  match u.new_array with
  | some arr => aspa_store_set t u.rtr_socket arr
  | none => t

/-- Modelled from the spec: `aspa_table_update_finish` (body not in the
source tree).  Releases unreachable provider data; it performs no change to
the table's published state. -/
def aspa_table_update_finish (t : aspa_table) (_u : aspa_update) : aspa_table :=
  t

/-- A notification event handed to the table's clients: the kind of change
and the record concerned. -/
structure aspa_event where
  type : aspa_operation_type
  record : aspa_record
  deriving DecidableEq

/-- Modelled from the spec: the add/remove diff reported to clients once an
update commits; `notify_no_ops` models the `ASPA_NOTIFY_NO_OPS`
configuration flag, which "determines if clients are notified about these
no-ops". -/
def aspa_notifications (canonical : List aspa_update_operation) (notify_no_ops : Bool) :
    List aspa_event :=
  (canonical.filter (fun o => !o.is_no_op || notify_no_ops)).map (fun o => ⟨o.type, o.record⟩)

/-- Modelled from the spec: one step of the in-place executor
(`aspa_table_update`'s body is not in the source tree).  A no-op operation
is skipped; an add whose ASN is present fails with `duplicate_record`, else
inserts at the sorted position; a remove whose ASN is absent fails with
`record_not_found`, else deletes the matching record and stashes it in the
operation so the mutation can be undone. -/
def aspa_apply_op (arr : aspa_array) (op : aspa_update_operation) :
    Except aspa_status (aspa_array × aspa_update_operation) :=
  if op.is_no_op then .ok (arr, op)
  else
    match op.type with
    | .add =>
      match aspa_array_search arr op.record.customer_asn with
      | some _ => .error .duplicate_record
      | none => .ok (aspa_array_insert op.record arr, op)
    | .remove =>
      match aspa_array_search arr op.record.customer_asn with
      | some found => .ok (aspa_array_remove op.record.customer_asn arr, { op with record := found })
      | none => .error .record_not_found

/-- Modelled from the spec: the in-place executor's walk over the canonical
sequence.  Applies each operation in order; on the first failure it stops
immediately, leaving the array as mutated so far, and reports the failing
operation and its status.  Returns the mutated array, the operation list
with performed removes annotated with the record they deleted, and the
failure, if any. -/
def aspa_apply_ops :
    aspa_array → List aspa_update_operation →
    aspa_array × List aspa_update_operation × Option (aspa_status × aspa_update_operation)
  | arr, [] => (arr, [], none)
  | arr, op :: rest =>
    match aspa_apply_op arr op with
    | .error s => (arr, op :: rest, some (s, op))
    | .ok (arr1, op1) =>
      let r := aspa_apply_ops arr1 rest
      (r.1, op1 :: r.2.1, r.2.2)

/-- Modelled from the spec: `aspa_table_update` (body not in the source
tree).  Runs the planner, then mutates the socket's array in place,
stopping at the first failure; the partially mutated array remains
published, the failing operation is reported through `failed_operation`
and its error code is returned. -/
def aspa_table_update (t : aspa_table) (sock : Nat) (ops : List aspa_update_operation) :
    aspa_table × List aspa_update_operation × aspa_status × Option aspa_update_operation :=
  match aspa_resolve_ops (aspa_sort_ops ops) with
  | .error (s, f) => (t, aspa_sort_ops ops, s, some f)
  | .ok canonical =>
    match aspa_apply_ops (aspa_store_get t sock) canonical with
    | (arr, ops1, none) => (aspa_store_set t sock arr, ops1, .success, none)
    | (arr, ops1, some (s, f)) => (aspa_store_set t sock arr, ops1, s, some f)

/-- Modelled from the spec: reversing one performed mutation.  Undoing a
performed add deletes the inserted record (`record_not_found` if its ASN is
absent); undoing a performed remove re-inserts the stashed record
(`duplicate_record` if its ASN is present); a skipped no-op is skipped
again. -/
def aspa_undo_op (arr : aspa_array) (op : aspa_update_operation) :
    Except aspa_status aspa_array :=
  if op.is_no_op then .ok arr
  else
    match op.type with
    | .add =>
      match aspa_array_search arr op.record.customer_asn with
      | some _ => .ok (aspa_array_remove op.record.customer_asn arr)
      | none => .error .record_not_found
    | .remove =>
      match aspa_array_search arr op.record.customer_asn with
      | some _ => .error .duplicate_record
      | none => .ok (aspa_array_insert op.record arr)

/-- Modelled from the spec: replay the performed mutations "in reverse
order -- re-inserting removed records, re-deleting inserted records".  The
operation list is in performed order; later operations are undone first. -/
def aspa_undo_ops : aspa_array → List aspa_update_operation → Except aspa_status aspa_array
  | arr, [] => .ok arr
  | arr, op :: rest =>
    match aspa_undo_ops arr rest with
    | .error s => .error s
    | .ok arr1 => aspa_undo_op arr1 op

/-- The operations undo replays: all of them, or those before the failing
operation. -/
def aspa_undo_scope (ops : List aspa_update_operation)
    (failed : Option aspa_update_operation) : List aspa_update_operation :=
  match failed with
  | none => ops
  | some f => ops.takeWhile (fun o => o.index != f.index)

/-- Modelled from the spec: `aspa_table_undo_update` (body not in the
source tree).  "Tries to undo operations up to `failed_operation`" -- or
all operations when none is given -- restoring the socket's array; it
returns a status and may itself fail. -/
def aspa_table_undo_update (t : aspa_table) (sock : Nat)
    (ops : List aspa_update_operation) (failed : Option aspa_update_operation) :
    aspa_table × aspa_status :=
  match aspa_undo_ops (aspa_store_get t sock) (aspa_undo_scope ops failed) with
  | .ok arr => (aspa_store_set t sock arr, .success)
  | .error s => (t, s)

/-- Hop verification results, mirroring `enum aspa_hop_result`. -/
inductive aspa_hop_result where
  | no_attestation
  | not_provider_plus
  | provider_plus
  deriving DecidableEq

/-- Modelled from the spec: `aspa_check_hop` (body not in the source tree)
on the relevant connection's array.  "NO_ATTESTATION (no record for this
customer ASN), NOT_PROVIDER_PLUS (a record exists but its provider set does
not contain `provider_asn`), PROVIDER_PLUS (a record exists and contains
`provider_asn`)". -/
def aspa_check_hop (arr : aspa_array) (customer_asn provider_asn : Nat) : aspa_hop_result :=
  match aspa_array_search arr customer_asn with
  | none => .no_attestation
  | some r => if provider_asn ∈ r.provider_asns then .provider_plus else .not_provider_plus

/-- Hop verification against the table: the check runs on the published
array of the relevant connection. -/
def aspa_table_check_hop (t : aspa_table) (sock : Nat) (customer_asn provider_asn : Nat) :
    aspa_hop_result :=
  aspa_check_hop (aspa_store_get t sock) customer_asn provider_asn

/-- The spec-side characterization of a successful merge: the result is
strictly sorted and unique by customer ASN, and holds exactly the existing
records whose ASN no surviving remove targets together with the records of
the surviving adds. -/
def aspa_merge_result_spec (existing : aspa_array) (canonical : List aspa_update_operation)
    (out : aspa_array) : Prop :=
  aspa_array_sorted out ∧
  ∀ r : aspa_record,
    r ∈ out ↔
      ((r ∈ existing ∧ r.customer_asn ∉ aspa_removed_asns canonical) ∨
        r ∈ aspa_added_records canonical)

-- MARK: Basic lemmas about arrays and the store

theorem aspa_array_search_eq_none (arr : aspa_array) (cas : Nat) :
    aspa_array_search arr cas = none ↔ ∀ r ∈ arr, r.customer_asn ≠ cas := by
  simp [aspa_array_search, List.find?_eq_none]

theorem aspa_array_search_eq_some (arr : aspa_array) (cas : Nat) (r : aspa_record)
    (h : aspa_array_search arr cas = some r) : r ∈ arr ∧ r.customer_asn = cas := by
  refine ⟨List.mem_of_find?_eq_some h, ?_⟩
  have := List.find?_some h
  simpa using this

theorem aspa_array_insert_mem (x r : aspa_record) (arr : aspa_array) :
    r ∈ aspa_array_insert x arr ↔ r = x ∨ r ∈ arr := by
  induction arr with
  | nil => simp [aspa_array_insert]
  | cons h t ih =>
    by_cases hle : x.customer_asn ≤ h.customer_asn
    · simp [aspa_array_insert, hle]
    · simp only [aspa_array_insert, if_neg hle, List.mem_cons, ih]
      tauto

theorem aspa_array_insert_sorted (x : aspa_record) (arr : aspa_array)
    (hs : aspa_array_sorted arr) (hfresh : ∀ r ∈ arr, r.customer_asn ≠ x.customer_asn) :
    aspa_array_sorted (aspa_array_insert x arr) := by
  induction arr with
  | nil => simp [aspa_array_insert, aspa_array_sorted]
  | cons h t ih =>
    rw [aspa_array_sorted, List.pairwise_cons] at hs
    by_cases hle : x.customer_asn ≤ h.customer_asn
    · have hlt : x.customer_asn < h.customer_asn :=
        lt_of_le_of_ne hle (fun e => hfresh h (by simp) e.symm)
      rw [aspa_array_insert, if_pos hle, aspa_array_sorted, List.pairwise_cons]
      refine ⟨?_, List.pairwise_cons.mpr hs⟩
      intro b hb
      rcases List.mem_cons.mp hb with rfl | hbt
      · exact hlt
      · exact lt_trans hlt (hs.1 b hbt)
    · have hlt : h.customer_asn < x.customer_asn := Nat.lt_of_not_le hle
      rw [aspa_array_insert, if_neg hle, aspa_array_sorted, List.pairwise_cons]
      refine ⟨?_, ih hs.2 (fun r hr => hfresh r (by simp [hr]))⟩
      intro b hb
      rcases (aspa_array_insert_mem x b t).mp hb with rfl | hbt
      · exact hlt
      · exact hs.1 b hbt

theorem aspa_array_remove_sublist (cas : Nat) (arr : aspa_array) :
    (aspa_array_remove cas arr).Sublist arr := by
  induction arr with
  | nil => simp [aspa_array_remove]
  | cons h t ih =>
    by_cases he : h.customer_asn = cas
    · rw [aspa_array_remove, if_pos he]
      exact List.sublist_cons_self h t
    · rw [aspa_array_remove, if_neg he]
      exact ih.cons₂ h

theorem aspa_array_remove_sorted (cas : Nat) (arr : aspa_array)
    (hs : aspa_array_sorted arr) : aspa_array_sorted (aspa_array_remove cas arr) :=
  List.Pairwise.sublist (aspa_array_remove_sublist cas arr) hs

theorem aspa_array_remove_mem (cas : Nat) (arr : aspa_array) (hs : aspa_array_sorted arr)
    (r : aspa_record) :
    r ∈ aspa_array_remove cas arr ↔ r ∈ arr ∧ r.customer_asn ≠ cas := by
  induction arr with
  | nil => simp [aspa_array_remove]
  | cons h t ih =>
    rw [aspa_array_sorted, List.pairwise_cons] at hs
    by_cases he : h.customer_asn = cas
    · rw [aspa_array_remove, if_pos he]
      constructor
      · intro hr
        exact ⟨List.mem_cons_of_mem h hr, by
          have := hs.1 r hr
          omega⟩
      · rintro ⟨hr, hne⟩
        rcases List.mem_cons.mp hr with rfl | hrt
        · exact absurd he hne
        · exact hrt
    · rw [aspa_array_remove, if_neg he]
      simp only [List.mem_cons, ih hs.2]
      constructor
      · rintro (rfl | ⟨hrt, hne⟩)
        · exact ⟨Or.inl rfl, he⟩
        · exact ⟨Or.inr hrt, hne⟩
      · rintro ⟨rfl | hrt, hne⟩
        · exact Or.inl rfl
        · exact Or.inr ⟨hrt, hne⟩

theorem aspa_array_remove_not_mem (cas : Nat) (arr : aspa_array) (hs : aspa_array_sorted arr) :
    aspa_array_search (aspa_array_remove cas arr) cas = none := by
  rw [aspa_array_search_eq_none]
  intro r hr
  exact ((aspa_array_remove_mem cas arr hs r).mp hr).2

theorem aspa_array_remove_insert (x : aspa_record) (arr : aspa_array)
    (hfresh : ∀ r ∈ arr, r.customer_asn ≠ x.customer_asn) :
    aspa_array_remove x.customer_asn (aspa_array_insert x arr) = arr := by
  induction arr with
  | nil => simp [aspa_array_insert, aspa_array_remove]
  | cons h t ih =>
    by_cases hle : x.customer_asn ≤ h.customer_asn
    · rw [aspa_array_insert, if_pos hle, aspa_array_remove, if_pos rfl]
    · rw [aspa_array_insert, if_neg hle, aspa_array_remove,
        if_neg (hfresh h (by simp)), ih (fun r hr => hfresh r (by simp [hr]))]

theorem aspa_array_insert_remove (x : aspa_record) (arr : aspa_array)
    (hs : aspa_array_sorted arr) (hx : x ∈ arr) :
    aspa_array_insert x (aspa_array_remove x.customer_asn arr) = arr := by
  induction arr with
  | nil => simp at hx
  | cons h t ih =>
    rw [aspa_array_sorted, List.pairwise_cons] at hs
    by_cases he : h.customer_asn = x.customer_asn
    · have hxh : x = h := by
        rcases List.mem_cons.mp hx with rfl | hxt
        · rfl
        · have := hs.1 x hxt
          omega
      subst hxh
      rw [aspa_array_remove, if_pos he]
      cases t with
      | nil => simp [aspa_array_insert]
      | cons h2 t2 =>
        have : x.customer_asn ≤ h2.customer_asn := le_of_lt (hs.1 h2 (by simp))
        rw [aspa_array_insert, if_pos this]
    · have hxt : x ∈ t := by
        rcases List.mem_cons.mp hx with rfl | hxt
        · exact absurd rfl he
        · exact hxt
      have hlt : h.customer_asn < x.customer_asn := hs.1 x hxt
      rw [aspa_array_remove, if_neg he, aspa_array_insert, if_neg (by omega), ih hs.2 hxt]

theorem aspa_array_sorted_ext (l1 l2 : aspa_array) (h1 : aspa_array_sorted l1)
    (h2 : aspa_array_sorted l2) (hm : ∀ r, r ∈ l1 ↔ r ∈ l2) : l1 = l2 := by
  induction l1 generalizing l2 with
  | nil =>
    cases l2 with
    | nil => rfl
    | cons h t => exact absurd ((hm h).mpr (by simp)) (by simp)
  | cons a t1 ih =>
    cases l2 with
    | nil => exact absurd ((hm a).mp (by simp)) (by simp)
    | cons b t2 =>
      rw [aspa_array_sorted, List.pairwise_cons] at h1 h2
      have hab : a = b := by
        rcases List.mem_cons.mp ((hm a).mp (by simp)) with rfl | hat2
        · rfl
        · rcases List.mem_cons.mp ((hm b).mpr (by simp)) with rfl | hbt1
          · rfl
          · have := h2.1 a hat2
            have := h1.1 b hbt1
            omega
      subst hab
      have htm : ∀ r, r ∈ t1 ↔ r ∈ t2 := by
        intro r
        constructor
        · intro hr
          rcases List.mem_cons.mp ((hm r).mp (List.mem_cons_of_mem a hr)) with rfl | h
          · have := h1.1 r hr
            omega
          · exact h
        · intro hr
          rcases List.mem_cons.mp ((hm r).mpr (List.mem_cons_of_mem a hr)) with rfl | h
          · have := h2.1 r hr
            omega
          · exact h
      rw [ih t2 h1.2 h2.2 htm]

theorem aspa_store_list_get_set_self (l : List (Nat × aspa_array)) (sock : Nat)
    (arr : aspa_array) : aspa_store_list_get (aspa_store_list_set l sock arr) sock = arr := by
  induction l with
  | nil => simp [aspa_store_list_set, aspa_store_list_get]
  | cons p rest ih =>
    by_cases hp : p.1 = sock
    · rw [aspa_store_list_set, if_pos hp, aspa_store_list_get, if_pos rfl]
    · rw [aspa_store_list_set, if_neg hp, aspa_store_list_get, if_neg hp, ih]

theorem aspa_store_list_get_set_ne (l : List (Nat × aspa_array)) (sock s : Nat)
    (arr : aspa_array) (h : s ≠ sock) :
    aspa_store_list_get (aspa_store_list_set l sock arr) s = aspa_store_list_get l s := by
  induction l with
  | nil => simp [aspa_store_list_set, aspa_store_list_get, Ne.symm h]
  | cons p rest ih =>
    by_cases hp : p.1 = sock
    · rw [aspa_store_list_set, if_pos hp, aspa_store_list_get, if_neg (by omega),
        aspa_store_list_get, if_neg (by omega)]
    · rw [aspa_store_list_set, if_neg hp, aspa_store_list_get, aspa_store_list_get]
      by_cases hps : p.1 = s
      · rw [if_pos hps, if_pos hps]
      · rw [if_neg hps, if_neg hps, ih]

theorem aspa_store_get_set_self (t : aspa_table) (sock : Nat) (arr : aspa_array) :
    aspa_store_get (aspa_store_set t sock arr) sock = arr :=
  aspa_store_list_get_set_self t.store sock arr

theorem aspa_store_get_set_ne (t : aspa_table) (sock s : Nat) (arr : aspa_array)
    (h : s ≠ sock) : aspa_store_get (aspa_store_set t sock arr) s = aspa_store_get t s :=
  aspa_store_list_get_set_ne t.store sock s arr h

-- MARK: Lemmas about the planner's stable sort

theorem aspa_mark_no_op_record (o : aspa_update_operation) :
    (aspa_mark_no_op o).record = o.record := rfl

theorem aspa_mark_no_op_type (o : aspa_update_operation) :
    (aspa_mark_no_op o).type = o.type := rfl

theorem aspa_mark_no_op_is_no_op (o : aspa_update_operation) :
    (aspa_mark_no_op o).is_no_op = true := rfl

theorem aspa_sort_ops_pairwise (ops : List aspa_update_operation) :
    List.Pairwise aspa_op_le (aspa_sort_ops ops) :=
  List.sorted_insertionSort aspa_op_le ops

theorem aspa_sort_ops_perm (ops : List aspa_update_operation) :
    (aspa_sort_ops ops).Perm ops :=
  List.perm_insertionSort aspa_op_le ops

theorem aspa_sort_ops_filter_asn (ops : List aspa_update_operation) (a : Nat) :
    (aspa_sort_ops ops).filter (fun o => o.record.customer_asn == a) =
      ops.filter (fun o => o.record.customer_asn == a) := by
  have hpair : (ops.filter (fun o => o.record.customer_asn == a)).Pairwise aspa_op_le := by
    apply List.pairwise_of_forall_mem_list
    intro x hx y hy
    have hx2 := (List.mem_filter.mp hx).2
    have hy2 := (List.mem_filter.mp hy).2
    simp only [beq_iff_eq] at hx2 hy2
    unfold aspa_op_le
    omega
  have hsub : (ops.filter (fun o => o.record.customer_asn == a)).Sublist (aspa_sort_ops ops) :=
    List.sublist_insertionSort hpair (List.filter_sublist ops)
  have hsub2 : (ops.filter (fun o => o.record.customer_asn == a)).Sublist
      ((aspa_sort_ops ops).filter (fun o => o.record.customer_asn == a)) := by
    have h1 := hsub.filter (fun o => o.record.customer_asn == a)
    rwa [List.filter_eq_self.mpr (fun x hx => (List.mem_filter.mp hx).2)] at h1
  have hperm : ((aspa_sort_ops ops).filter (fun o => o.record.customer_asn == a)).Perm
      (ops.filter (fun o => o.record.customer_asn == a)) :=
    (aspa_sort_ops_perm ops).filter (fun o => o.record.customer_asn == a)
  exact (hsub2.eq_of_length hperm.length_eq.symm).symm

-- MARK: Lemmas about conflict resolution

theorem aspa_resolve_ops_asn_sub :
    ∀ (l out : List aspa_update_operation),
      aspa_resolve_ops l = .ok out →
      ∀ o ∈ out, o.record.customer_asn ∈ l.map (fun x => x.record.customer_asn)
  | [], out, h => by
    simp only [aspa_resolve_ops, Except.ok.injEq] at h
    subst h
    simp
  | [o], out, h => by
    simp only [aspa_resolve_ops, Except.ok.injEq] at h
    subst h
    simp
  | x :: y :: rest, out, h => by
    simp only [aspa_resolve_ops] at h
    by_cases hxy : x.record.customer_asn = y.record.customer_asn
    · rw [if_pos hxy] at h
      by_cases hty : x.type = y.type
      · rw [if_pos hty] at h
        exact absurd h (by simp)
      · rw [if_neg hty] at h
        cases hres : aspa_resolve_ops rest with
        | error e =>
          rw [hres] at h
          exact absurd h (by simp [Except.map])
        | ok out1 =>
          rw [hres] at h
          simp only [Except.map, Except.ok.injEq] at h
          subst h
          intro o ho
          rcases List.mem_cons.mp ho with rfl | ho
          · simp [aspa_mark_no_op_record]
          · rcases List.mem_cons.mp ho with rfl | ho
            · simp [aspa_mark_no_op_record]
            · have := aspa_resolve_ops_asn_sub rest out1 hres o ho
              simp only [List.map_cons, List.mem_cons]
              tauto
    · rw [if_neg hxy] at h
      cases hres : aspa_resolve_ops (y :: rest) with
      | error e =>
        rw [hres] at h
        exact absurd h (by simp [Except.map])
      | ok out1 =>
        rw [hres] at h
        simp only [Except.map, Except.ok.injEq] at h
        subst h
        intro o ho
        rcases List.mem_cons.mp ho with rfl | ho
        · simp
        · have := aspa_resolve_ops_asn_sub (y :: rest) out1 hres o ho
          simp only [List.map_cons, List.mem_cons] at this ⊢
          tauto

theorem aspa_surviving_cons (o : aspa_update_operation) (ops : List aspa_update_operation) :
    aspa_surviving (o :: ops) =
      if o.is_no_op then aspa_surviving ops else o :: aspa_surviving ops := by
  by_cases h : o.is_no_op <;> simp [aspa_surviving, List.filter_cons, h]

theorem aspa_resolve_ops_surviving_sorted :
    ∀ (l out : List aspa_update_operation), List.Pairwise aspa_op_le l →
      aspa_resolve_ops l = .ok out →
      List.Pairwise aspa_op_lt (aspa_surviving out)
  | [], out, _, h => by
    simp only [aspa_resolve_ops, Except.ok.injEq] at h
    subst h
    simp [aspa_surviving]
  | [o], out, _, h => by
    simp only [aspa_resolve_ops, Except.ok.injEq] at h
    subst h
    by_cases hn : o.is_no_op <;> simp [aspa_surviving, List.filter_cons, hn]
  | x :: y :: rest, out, hsort, h => by
    simp only [aspa_resolve_ops] at h
    by_cases hxy : x.record.customer_asn = y.record.customer_asn
    · rw [if_pos hxy] at h
      by_cases hty : x.type = y.type
      · rw [if_pos hty] at h
        exact absurd h (by simp)
      · rw [if_neg hty] at h
        cases hres : aspa_resolve_ops rest with
        | error e =>
          rw [hres] at h
          exact absurd h (by simp [Except.map])
        | ok out1 =>
          rw [hres] at h
          simp only [Except.map, Except.ok.injEq] at h
          subst h
          have hrest : List.Pairwise aspa_op_le rest :=
            (List.pairwise_cons.mp (List.pairwise_cons.mp hsort).2).2
          have := aspa_resolve_ops_surviving_sorted rest out1 hrest hres
          simpa [aspa_surviving_cons, aspa_mark_no_op_is_no_op] using this
    · rw [if_neg hxy] at h
      cases hres : aspa_resolve_ops (y :: rest) with
      | error e =>
        rw [hres] at h
        exact absurd h (by simp [Except.map])
      | ok out1 =>
        rw [hres] at h
        simp only [Except.map, Except.ok.injEq] at h
        subst h
        have htail : List.Pairwise aspa_op_le (y :: rest) :=
          (List.pairwise_cons.mp hsort).2
        have ih := aspa_resolve_ops_surviving_sorted (y :: rest) out1 htail hres
        rw [aspa_surviving_cons]
        by_cases hn : x.is_no_op
        · rwa [if_pos hn]
        · rw [if_neg hn]
          rw [List.pairwise_cons]
          refine ⟨?_, ih⟩
          intro o ho
          have ho1 : o ∈ out1 := List.mem_of_mem_filter ho
          have hasn := aspa_resolve_ops_asn_sub (y :: rest) out1 hres o ho1
          have hx_le := List.pairwise_cons.mp hsort
          have hxlty : x.record.customer_asn < y.record.customer_asn :=
            lt_of_le_of_ne (hx_le.1 y (by simp)) hxy
          simp only [List.map_cons, List.mem_cons] at hasn
          rcases hasn with heq | hmem
          · unfold aspa_op_lt
            omega
          · rcases List.mem_map.mp hmem with ⟨z, hz, hzeq⟩
            have hyz : aspa_op_le y z := (List.pairwise_cons.mp hx_le.2).1 z hz
            unfold aspa_op_le at hyz
            unfold aspa_op_lt
            omega

theorem aspa_resolve_ops_pair :
    ∀ (l out : List aspa_update_operation) (a : Nat) (o1 o2 : aspa_update_operation),
      List.Pairwise aspa_op_le l →
      l.filter (fun o => o.record.customer_asn == a) = [o1, o2] →
      o1.type ≠ o2.type →
      aspa_resolve_ops l = .ok out →
      out.filter (fun o => o.record.customer_asn == a) =
        [aspa_mark_no_op o1, aspa_mark_no_op o2]
  | [], out, a, o1, o2, _, hfa, _, h => by
    simp at hfa
  | [o], out, a, o1, o2, _, hfa, _, h => by
    by_cases ho : o.record.customer_asn = a <;> simp [List.filter_cons, ho] at hfa
  | x :: y :: rest, out, a, o1, o2, hsort, hfa, hty, h => by
    simp only [aspa_resolve_ops] at h
    by_cases hxy : x.record.customer_asn = y.record.customer_asn
    · rw [if_pos hxy] at h
      by_cases htyxy : x.type = y.type
      · rw [if_pos htyxy] at h
        exact absurd h (by simp)
      · rw [if_neg htyxy] at h
        cases hres : aspa_resolve_ops rest with
        | error e =>
          rw [hres] at h
          exact absurd h (by simp [Except.map])
        | ok out1 =>
          rw [hres] at h
          simp only [Except.map, Except.ok.injEq] at h
          subst h
          by_cases hx : x.record.customer_asn = a
          · have hy : y.record.customer_asn = a := by omega
            rw [List.filter_cons_of_pos (by simp [hx]),
              List.filter_cons_of_pos (by simp [hy])] at hfa
            have hrest_nil : rest.filter (fun o => o.record.customer_asn == a) = [] := by
              have hlen := congrArg List.length hfa
              simp at hlen
              rw [List.filter_eq_nil_iff]
              intro z hz
              simpa using hlen z hz
            obtain ⟨rfl, rfl, -⟩ : x = o1 ∧ y = o2 ∧ True := by
              rw [hrest_nil] at hfa
              have h1 := List.cons.injEq x _ o1 [o2] ▸ hfa
              simp at hfa
              exact ⟨hfa.1, hfa.2, trivial⟩
            rw [List.filter_cons_of_pos (by simp [aspa_mark_no_op_record, hx]),
              List.filter_cons_of_pos (by simp [aspa_mark_no_op_record, hy])]
            have hout1_nil : out1.filter (fun o => o.record.customer_asn == a) = [] := by
              rw [List.filter_eq_nil_iff]
              intro o ho
              have hmem := aspa_resolve_ops_asn_sub rest out1 hres o ho
              rcases List.mem_map.mp hmem with ⟨z, hz, hzeq⟩
              have : ¬(z.record.customer_asn == a) = true := by
                have := List.filter_eq_nil_iff.mp hrest_nil z hz
                exact this
              simp only [beq_iff_eq] at this ⊢
              omega
            rw [hout1_nil]
          · have hy : ¬y.record.customer_asn = a := by omega
            rw [List.filter_cons_of_neg (by simp [hx]),
              List.filter_cons_of_neg (by simp [hy])] at hfa
            have hrest : List.Pairwise aspa_op_le rest :=
              (List.pairwise_cons.mp (List.pairwise_cons.mp hsort).2).2
            rw [List.filter_cons_of_neg (by simp [aspa_mark_no_op_record, hx]),
              List.filter_cons_of_neg (by simp [aspa_mark_no_op_record, hy])]
            exact aspa_resolve_ops_pair rest out1 a o1 o2 hrest hfa hty hres
    · rw [if_neg hxy] at h
      cases hres : aspa_resolve_ops (y :: rest) with
      | error e =>
        rw [hres] at h
        exact absurd h (by simp [Except.map])
      | ok out1 =>
        rw [hres] at h
        simp only [Except.map, Except.ok.injEq] at h
        subst h
        by_cases hx : x.record.customer_asn = a
        · exfalso
          rw [List.filter_cons_of_pos (by simp [hx])] at hfa
          simp only [List.cons.injEq] at hfa
          have h2 : (y :: rest).filter (fun o => o.record.customer_asn == a) = [o2] := hfa.2
          have ho2 : o2 ∈ (y :: rest).filter (fun o => o.record.customer_asn == a) := by
            rw [h2]; simp
          have ho2m := List.mem_filter.mp ho2
          have ho2a : o2.record.customer_asn = a := by
            have := ho2m.2
            simpa using this
          have hx_le := List.pairwise_cons.mp hsort
          rcases List.mem_cons.mp ho2m.1 with rfl | ho2rest
          · omega
          · have hxy_lt : x.record.customer_asn < y.record.customer_asn :=
              lt_of_le_of_ne (hx_le.1 y (by simp)) hxy
            have hyo2 : aspa_op_le y o2 :=
              (List.pairwise_cons.mp hx_le.2).1 o2 ho2rest
            unfold aspa_op_le at hyo2
            omega
        · rw [List.filter_cons_of_neg (by simp [hx])] at hfa
          have htail : List.Pairwise aspa_op_le (y :: rest) :=
            (List.pairwise_cons.mp hsort).2
          rw [List.filter_cons_of_neg (by simp [hx])]
          exact aspa_resolve_ops_pair (y :: rest) out1 a o1 o2 htail hfa hty hres

theorem aspa_dropWhile_ge (arr : aspa_array) (k : Nat) (hs : aspa_array_sorted arr) :
    ∀ e ∈ arr.dropWhile (fun e => e.customer_asn < k), k ≤ e.customer_asn := by
  induction arr with
  | nil => simp
  | cons h t ih =>
    rw [aspa_array_sorted, List.pairwise_cons] at hs
    by_cases hh : h.customer_asn < k
    · rw [List.dropWhile_cons, if_pos (by simpa using hh)]
      exact ih hs.2
    · rw [List.dropWhile_cons, if_neg (by simpa using hh)]
      intro e he
      rcases List.mem_cons.mp he with rfl | het
      · omega
      · have := hs.1 e het
        omega

theorem aspa_removed_asns_cons (op : aspa_update_operation) (ops : List aspa_update_operation) :
    aspa_removed_asns (op :: ops) =
      if op.is_no_op then aspa_removed_asns ops
      else if aspa_is_remove op then op.record.customer_asn :: aspa_removed_asns ops
      else aspa_removed_asns ops := by
  by_cases h1 : op.is_no_op <;> by_cases h2 : aspa_is_remove op <;>
    simp [aspa_removed_asns, aspa_surviving_cons, h1, h2, List.filter_cons]

theorem aspa_added_records_cons (op : aspa_update_operation) (ops : List aspa_update_operation) :
    aspa_added_records (op :: ops) =
      if op.is_no_op then aspa_added_records ops
      else if aspa_is_add op then op.record :: aspa_added_records ops
      else aspa_added_records ops := by
  by_cases h1 : op.is_no_op <;> by_cases h2 : aspa_is_add op <;>
    simp [aspa_added_records, aspa_surviving_cons, h1, h2, List.filter_cons]

theorem aspa_surviving_bound (op : aspa_update_operation) (ops : List aspa_update_operation)
    (hps : List.Pairwise aspa_op_lt (aspa_surviving (op :: ops))) (hn : op.is_no_op = false) :
    (∀ c ∈ aspa_removed_asns ops, op.record.customer_asn < c) ∧
    (∀ r ∈ aspa_added_records ops, op.record.customer_asn < r.customer_asn) := by
  rw [aspa_surviving_cons, hn] at hps
  simp only [Bool.false_eq_true, if_false, List.pairwise_cons] at hps
  constructor
  · intro c hc
    rcases List.mem_map.mp hc with ⟨o, ho, rfl⟩
    have : o ∈ aspa_surviving ops := List.mem_of_mem_filter ho
    exact hps.1 o this
  · intro r hr
    rcases List.mem_map.mp hr with ⟨o, ho, rfl⟩
    have : o ∈ aspa_surviving ops := List.mem_of_mem_filter ho
    exact hps.1 o this

theorem aspa_surviving_tail (op : aspa_update_operation) (ops : List aspa_update_operation)
    (hps : List.Pairwise aspa_op_lt (aspa_surviving (op :: ops))) :
    List.Pairwise aspa_op_lt (aspa_surviving ops) := by
  rw [aspa_surviving_cons] at hps
  by_cases hn : op.is_no_op
  · rwa [if_pos hn] at hps
  · rw [if_neg hn] at hps
    exact (List.pairwise_cons.mp hps).2

set_option maxHeartbeats 1000000

theorem aspa_merge_ok_spec :
    ∀ (ops : List aspa_update_operation) (arr out : aspa_array),
      aspa_array_sorted arr →
      List.Pairwise aspa_op_lt (aspa_surviving ops) →
      aspa_merge arr ops = .ok out →
      (aspa_array_sorted out ∧
        (∀ r ∈ out, r ∈ arr ∨ r ∈ aspa_added_records ops) ∧
        ∀ r : aspa_record, r ∈ out ↔
          ((r ∈ arr ∧ r.customer_asn ∉ aspa_removed_asns ops) ∨ r ∈ aspa_added_records ops))
  | [], arr, out, hs, _, h => by
    simp only [aspa_merge, Except.ok.injEq] at h
    subst h
    refine ⟨hs, ?_, ?_⟩ <;>
      simp [aspa_removed_asns, aspa_added_records, aspa_surviving]
  | op :: rest, arr, out, hs, hps, h => by
    have htail : List.Pairwise aspa_op_lt (aspa_surviving rest) := aspa_surviving_tail op rest hps
    by_cases hno : op.is_no_op
    · -- no-op: skipped entirely
      have heq : aspa_merge arr (op :: rest) = aspa_merge arr rest := by
        simp only [aspa_merge, hno, if_true]
      rw [heq] at h
      have ih := aspa_merge_ok_spec rest arr out hs htail h
      rw [aspa_removed_asns_cons, aspa_added_records_cons, if_pos hno, if_pos hno]
      exact ih
    · have hnof : op.is_no_op = false := by simpa using hno
      have hbound := aspa_surviving_bound op rest hps hnof
      have harr := List.takeWhile_append_dropWhile
        (p := fun e => e.customer_asn < op.record.customer_asn) (l := arr)
      have hless : ∀ e ∈ arr.takeWhile (fun e => e.customer_asn < op.record.customer_asn),
          e.customer_asn < op.record.customer_asn := by
        intro e he
        simpa using List.mem_takeWhile_imp he
      have hgeq : ∀ e ∈ arr.dropWhile (fun e => e.customer_asn < op.record.customer_asn),
          op.record.customer_asn ≤ e.customer_asn := aspa_dropWhile_ge arr _ hs
      have hless_sorted : aspa_array_sorted
          (arr.takeWhile (fun e => e.customer_asn < op.record.customer_asn)) :=
        List.Pairwise.sublist (List.takeWhile_sublist _) hs
      have hgeq_sorted : aspa_array_sorted
          (arr.dropWhile (fun e => e.customer_asn < op.record.customer_asn)) :=
        List.Pairwise.sublist (List.dropWhile_sublist _) hs
      cases hdrop : arr.dropWhile (fun e => e.customer_asn < op.record.customer_asn) with
      | nil =>
        cases htype : op.type with
        | add =>
          have heq : aspa_merge arr (op :: rest) = (aspa_merge [] rest).map
              (fun o => arr.takeWhile (fun e => e.customer_asn < op.record.customer_asn)
                ++ op.record :: o) := by
            simp only [aspa_merge, hnof, Bool.false_eq_true, if_false]
            rw [hdrop, htype]
          rw [heq] at h
          cases hres : aspa_merge [] rest with
          | error e1 =>
            rw [hres] at h
            exact absurd h (by simp [Except.map])
          | ok out1 =>
            rw [hres] at h
            simp only [Except.map, Except.ok.injEq] at h
            subst h
            obtain ⟨hs1, hsub1, hmem1⟩ :=
              aspa_merge_ok_spec rest [] out1 (by simp [aspa_array_sorted]) htail hres
            have hmem1x : ∀ r : aspa_record, r ∈ out1 ↔ r ∈ aspa_added_records rest := by
              intro r
              rw [hmem1 r]
              simp
            have harr2 : arr.takeWhile (fun e => e.customer_asn < op.record.customer_asn) = arr := by
              conv_rhs => rw [← harr]
              rw [hdrop, List.append_nil]
            have hremc : aspa_removed_asns (op :: rest) = aspa_removed_asns rest := by
              rw [aspa_removed_asns_cons, if_neg (by simp [hnof]),
                if_neg (by simp [aspa_is_remove, htype])]
            have haddc : aspa_added_records (op :: rest) = op.record :: aspa_added_records rest := by
              rw [aspa_added_records_cons, if_neg (by simp [hnof]),
                if_pos (by simp [aspa_is_add, htype])]
            refine ⟨?_, ?_, ?_⟩
            · rw [aspa_array_sorted, List.pairwise_append]
              refine ⟨hless_sorted, ?_, ?_⟩
              · rw [List.pairwise_cons]
                refine ⟨fun r hr => hbound.2 r ((hmem1x r).mp hr), hs1⟩
              · intro x hx y hy
                have hxlt := hless x hx
                rcases List.mem_cons.mp hy with rfl | hy1
                · exact hxlt
                · have := hbound.2 y ((hmem1x y).mp hy1)
                  omega
            · intro r hr
              rw [haddc]
              rcases List.mem_append.mp hr with hrl | hrc
              · exact Or.inl (by rw [← harr2]; exact hrl)
              · rcases List.mem_cons.mp hrc with rfl | hr1
                · exact Or.inr (by simp)
                · exact Or.inr (List.mem_cons_of_mem _ ((hmem1x r).mp hr1))
            · intro r
              rw [hremc, haddc]
              constructor
              · intro hr
                rcases List.mem_append.mp hr with hrl | hrc
                · refine Or.inl ⟨by rw [← harr2]; exact hrl, ?_⟩
                  intro hmem
                  have := hbound.1 _ hmem
                  have := hless r hrl
                  omega
                · rcases List.mem_cons.mp hrc with rfl | hr1
                  · exact Or.inr (by simp)
                  · exact Or.inr (List.mem_cons_of_mem _ ((hmem1x r).mp hr1))
              · intro hr
                rcases hr with ⟨hrin, hrnot⟩ | hradd
                · rw [← harr2] at hrin
                  exact List.mem_append.mpr (Or.inl hrin)
                · rcases List.mem_cons.mp hradd with rfl | hr1
                  · exact List.mem_append.mpr (Or.inr (by simp))
                  · exact List.mem_append.mpr
                      (Or.inr (List.mem_cons_of_mem _ ((hmem1x r).mpr hr1)))
        | remove =>
          have heq : aspa_merge arr (op :: rest) =
              .error (aspa_status.record_not_found, op) := by
            simp only [aspa_merge, hnof, Bool.false_eq_true, if_false]
            rw [hdrop, htype]
          rw [heq] at h
          exact absurd h (by simp)
      | cons e es =>
        by_cases hee : e.customer_asn = op.record.customer_asn
        · cases htype : op.type with
          | add =>
            have heq : aspa_merge arr (op :: rest) =
                .error (aspa_status.duplicate_record, op) := by
              simp only [aspa_merge, hnof, Bool.false_eq_true, if_false]
              rw [hdrop, htype]
              simp [hee]
            rw [heq] at h
            exact absurd h (by simp)
          | remove =>
            have heq : aspa_merge arr (op :: rest) = (aspa_merge es rest).map
                (fun o => arr.takeWhile (fun e => e.customer_asn < op.record.customer_asn)
                  ++ o) := by
              simp only [aspa_merge, hnof, Bool.false_eq_true, if_false]
              rw [hdrop, htype]
              simp [hee]
            rw [heq] at h
            cases hres : aspa_merge es rest with
            | error e1 =>
              rw [hres] at h
              exact absurd h (by simp [Except.map])
            | ok out1 =>
              rw [hres] at h
              simp only [Except.map, Except.ok.injEq] at h
              subst h
              have harr3 : arr.takeWhile (fun x => x.customer_asn < op.record.customer_asn)
                  ++ e :: es = arr := by
                conv_rhs => rw [← harr]
                rw [hdrop]
              rw [hdrop] at hgeq_sorted
              have hsorted_ees := hgeq_sorted
              rw [aspa_array_sorted, List.pairwise_cons] at hsorted_ees
              have hes_gt : ∀ y ∈ es, op.record.customer_asn < y.customer_asn := by
                intro y hy
                have := hsorted_ees.1 y hy
                omega
              obtain ⟨hs1, hsub1, hmem1⟩ :=
                aspa_merge_ok_spec rest es out1 hsorted_ees.2 htail hres
              have hremc : aspa_removed_asns (op :: rest) =
                  op.record.customer_asn :: aspa_removed_asns rest := by
                rw [aspa_removed_asns_cons, if_neg (by simp [hnof]),
                  if_pos (by simp [aspa_is_remove, htype])]
              have haddc : aspa_added_records (op :: rest) = aspa_added_records rest := by
                rw [aspa_added_records_cons, if_neg (by simp [hnof]),
                  if_neg (by simp [aspa_is_add, htype])]
              refine ⟨?_, ?_, ?_⟩
              · rw [aspa_array_sorted, List.pairwise_append]
                refine ⟨hless_sorted, hs1, ?_⟩
                intro x hx y hy
                have hxlt := hless x hx
                rcases hsub1 y hy with hyes | hyadd
                · have := hes_gt y hyes
                  omega
                · have := hbound.2 y hyadd
                  omega
              · intro r hr
                rw [haddc]
                rcases List.mem_append.mp hr with hrl | hr1
                · exact Or.inl (by rw [← harr3]; exact List.mem_append.mpr (Or.inl hrl))
                · rcases hsub1 r hr1 with hres2 | hradd
                  · exact Or.inl (by rw [← harr3]; simp [hres2])
                  · exact Or.inr hradd
              · intro r
                rw [hremc, haddc]
                constructor
                · intro hr
                  rcases List.mem_append.mp hr with hrl | hr1
                  · have hrlt := hless r hrl
                    refine Or.inl ⟨by rw [← harr3]; exact List.mem_append.mpr (Or.inl hrl), ?_⟩
                    intro hmem
                    rcases List.mem_cons.mp hmem with heq2 | hmem2
                    · omega
                    · have := hbound.1 _ hmem2
                      omega
                  · rcases (hmem1 r).mp hr1 with ⟨hres2, hnot2⟩ | hradd
                    · have hrgt := hes_gt r hres2
                      refine Or.inl ⟨by rw [← harr3]; simp [hres2], ?_⟩
                      intro hmem
                      rcases List.mem_cons.mp hmem with heq2 | hmem2
                      · omega
                      · exact hnot2 hmem2
                    · exact Or.inr hradd
                · intro hr
                  rcases hr with ⟨hrin, hrnot⟩ | hradd
                  · rw [← harr3] at hrin
                    rcases List.mem_append.mp hrin with hrl | hrc
                    · exact List.mem_append.mpr (Or.inl hrl)
                    · rcases List.mem_cons.mp hrc with rfl | hres2
                      · exfalso
                        exact hrnot (by rw [hee]; exact List.mem_cons_self _ _)
                      · refine List.mem_append.mpr (Or.inr ((hmem1 r).mpr (Or.inl ⟨hres2, ?_⟩)))
                        intro hmem2
                        exact hrnot (List.mem_cons_of_mem _ hmem2)
                  · exact List.mem_append.mpr (Or.inr ((hmem1 r).mpr (Or.inr hradd)))
        · cases htype : op.type with
          | add =>
            have heq : aspa_merge arr (op :: rest) = (aspa_merge (e :: es) rest).map
                (fun o => arr.takeWhile (fun e => e.customer_asn < op.record.customer_asn)
                  ++ op.record :: o) := by
              simp only [aspa_merge, hnof, Bool.false_eq_true, if_false]
              rw [hdrop, htype]
              simp [hee]
            rw [heq] at h
            cases hres : aspa_merge (e :: es) rest with
            | error e1 =>
              rw [hres] at h
              exact absurd h (by simp [Except.map])
            | ok out1 =>
              rw [hres] at h
              simp only [Except.map, Except.ok.injEq] at h
              subst h
              have harr3 : arr.takeWhile (fun x => x.customer_asn < op.record.customer_asn)
                  ++ e :: es = arr := by
                conv_rhs => rw [← harr]
                rw [hdrop]
              rw [hdrop] at hgeq_sorted hgeq
              have hees_gt : ∀ y ∈ e :: es, op.record.customer_asn < y.customer_asn := by
                intro y hy
                have hle := hgeq y hy
                rcases List.mem_cons.mp hy with rfl | hyes
                · omega
                · have hsorted_ees := hgeq_sorted
                  rw [aspa_array_sorted, List.pairwise_cons] at hsorted_ees
                  have := hsorted_ees.1 y hyes
                  have he_ge := hgeq e (List.mem_cons_self _ _)
                  omega
              obtain ⟨hs1, hsub1, hmem1⟩ :=
                aspa_merge_ok_spec rest (e :: es) out1 hgeq_sorted htail hres
              have hremc : aspa_removed_asns (op :: rest) = aspa_removed_asns rest := by
                rw [aspa_removed_asns_cons, if_neg (by simp [hnof]),
                  if_neg (by simp [aspa_is_remove, htype])]
              have haddc : aspa_added_records (op :: rest) = op.record :: aspa_added_records rest := by
                rw [aspa_added_records_cons, if_neg (by simp [hnof]),
                  if_pos (by simp [aspa_is_add, htype])]
              have hout1_gt : ∀ y ∈ out1, op.record.customer_asn < y.customer_asn := by
                intro y hy
                rcases hsub1 y hy with hyes | hyadd
                · exact hees_gt y hyes
                · exact hbound.2 y hyadd
              refine ⟨?_, ?_, ?_⟩
              · rw [aspa_array_sorted, List.pairwise_append]
                refine ⟨hless_sorted, ?_, ?_⟩
                · rw [List.pairwise_cons]
                  exact ⟨hout1_gt, hs1⟩
                · intro x hx y hy
                  have hxlt := hless x hx
                  rcases List.mem_cons.mp hy with rfl | hy1
                  · exact hxlt
                  · have := hout1_gt y hy1
                    omega
              · intro r hr
                rw [haddc]
                rcases List.mem_append.mp hr with hrl | hrc
                · exact Or.inl (by rw [← harr3]; exact List.mem_append.mpr (Or.inl hrl))
                · rcases List.mem_cons.mp hrc with rfl | hr1
                  · exact Or.inr (by simp)
                  · rcases hsub1 r hr1 with hres2 | hradd
                    · exact Or.inl (by rw [← harr3]; exact List.mem_append.mpr (Or.inr hres2))
                    · exact Or.inr (List.mem_cons_of_mem _ hradd)
              · intro r
                rw [hremc, haddc]
                constructor
                · intro hr
                  rcases List.mem_append.mp hr with hrl | hrc
                  · have hrlt := hless r hrl
                    refine Or.inl ⟨by rw [← harr3]; exact List.mem_append.mpr (Or.inl hrl), ?_⟩
                    intro hmem
                    have := hbound.1 _ hmem
                    omega
                  · rcases List.mem_cons.mp hrc with rfl | hr1
                    · exact Or.inr (by simp)
                    · rcases (hmem1 r).mp hr1 with ⟨hres2, hnot2⟩ | hradd
                      · exact Or.inl ⟨by rw [← harr3]; exact List.mem_append.mpr (Or.inr hres2), hnot2⟩
                      · exact Or.inr (List.mem_cons_of_mem _ hradd)
                · intro hr
                  rcases hr with ⟨hrin, hrnot⟩ | hradd
                  · rw [← harr3] at hrin
                    rcases List.mem_append.mp hrin with hrl | hrc
                    · exact List.mem_append.mpr (Or.inl hrl)
                    · exact List.mem_append.mpr (Or.inr (List.mem_cons_of_mem _
                        ((hmem1 r).mpr (Or.inl ⟨hrc, hrnot⟩))))
                  · rcases List.mem_cons.mp hradd with rfl | hr1
                    · exact List.mem_append.mpr (Or.inr (by simp))
                    · exact List.mem_append.mpr (Or.inr (List.mem_cons_of_mem _
                        ((hmem1 r).mpr (Or.inr hr1))))
          | remove =>
            have heq : aspa_merge arr (op :: rest) =
                .error (aspa_status.record_not_found, op) := by
              simp only [aspa_merge, hnof, Bool.false_eq_true, if_false]
              rw [hdrop, htype]
              simp [hee]
            rw [heq] at h
            exact absurd h (by simp)

-- MARK: Lemmas about the in-place executor

theorem aspa_apply_op_undo (arr : aspa_array) (op : aspa_update_operation)
    (hs : aspa_array_sorted arr) (arr1 : aspa_array) (op1 : aspa_update_operation)
    (h : aspa_apply_op arr op = .ok (arr1, op1)) :
    aspa_array_sorted arr1 ∧ aspa_undo_op arr1 op1 = .ok arr := by
  by_cases hno : op.is_no_op
  · rw [aspa_apply_op, if_pos hno] at h
    simp only [Except.ok.injEq, Prod.mk.injEq] at h
    obtain ⟨rfl, rfl⟩ := h
    exact ⟨hs, by rw [aspa_undo_op, if_pos hno]⟩
  · rw [aspa_apply_op, if_neg hno] at h
    cases htype : op.type with
    | add =>
      rw [htype] at h
      cases hsearch : aspa_array_search arr op.record.customer_asn with
      | some found =>
        rw [hsearch] at h
        exact absurd h (by simp)
      | none =>
        rw [hsearch] at h
        simp only [Except.ok.injEq, Prod.mk.injEq] at h
        obtain ⟨rfl, rfl⟩ := h
        have hfresh := (aspa_array_search_eq_none arr op.record.customer_asn).mp hsearch
        refine ⟨aspa_array_insert_sorted op.record arr hs hfresh, ?_⟩
        rw [aspa_undo_op, if_neg hno, htype]
        have hmem : op.record ∈ aspa_array_insert op.record arr :=
          (aspa_array_insert_mem op.record op.record arr).mpr (Or.inl rfl)
        cases hsearch2 : aspa_array_search (aspa_array_insert op.record arr)
            op.record.customer_asn with
        | none =>
          exact absurd ((aspa_array_search_eq_none _ _).mp hsearch2 op.record hmem) (by simp)
        | some found2 =>
          rw [aspa_array_remove_insert op.record arr hfresh]
    | remove =>
      rw [htype] at h
      cases hsearch : aspa_array_search arr op.record.customer_asn with
      | none =>
        rw [hsearch] at h
        exact absurd h (by simp)
      | some found =>
        rw [hsearch] at h
        simp only [Except.ok.injEq, Prod.mk.injEq] at h
        obtain ⟨rfl, rfl⟩ := h
        obtain ⟨hfmem, hfasn⟩ := aspa_array_search_eq_some arr op.record.customer_asn found hsearch
        refine ⟨aspa_array_remove_sorted _ arr hs, ?_⟩
        have hfin : aspa_array_insert found (aspa_array_remove op.record.customer_asn arr)
            = arr := by
          rw [← hfasn]
          exact aspa_array_insert_remove found arr hs hfmem
        simp only [aspa_undo_op]
        rw [if_neg hno, hfasn, aspa_array_remove_not_mem op.record.customer_asn arr hs, hfin]

theorem aspa_apply_ops_undo :
    ∀ (ops : List aspa_update_operation) (arr out : aspa_array)
      (ops1 : List aspa_update_operation),
      aspa_array_sorted arr →
      aspa_apply_ops arr ops = (out, ops1, none) →
      aspa_undo_ops out ops1 = .ok arr
  | [], arr, out, ops1, _, h => by
    simp only [aspa_apply_ops, Prod.mk.injEq] at h
    obtain ⟨rfl, rfl, -⟩ := h
    rfl
  | op :: rest, arr, out, ops1, hs, h => by
    simp only [aspa_apply_ops] at h
    cases happ : aspa_apply_op arr op with
    | error s0 =>
      rw [happ] at h
      simp at h
    | ok p =>
      obtain ⟨arr1, op1⟩ := p
      rw [happ] at h
      simp only [Prod.mk.injEq] at h
      obtain ⟨h1, h2, h3⟩ := h
      obtain ⟨hs1, hundo1⟩ := aspa_apply_op_undo arr op hs arr1 op1 happ
      cases hrec : aspa_apply_ops arr1 rest with
      | mk out2 q =>
        obtain ⟨ops2, fail2⟩ := q
        rw [hrec] at h1 h2 h3
        simp only at h1 h2 h3
        subst h1
        subst h3
        have ih := aspa_apply_ops_undo rest arr1 out2 ops2 hs1 hrec
        rw [← h2]
        rw [aspa_undo_ops, ih]
        exact hundo1

theorem aspa_apply_ops_ok_spec :
    ∀ (ops : List aspa_update_operation) (arr out : aspa_array)
      (ops1 : List aspa_update_operation),
      aspa_array_sorted arr →
      List.Pairwise aspa_op_lt (aspa_surviving ops) →
      aspa_apply_ops arr ops = (out, ops1, none) →
      aspa_array_sorted out ∧
      ∀ r : aspa_record, r ∈ out ↔
        ((r ∈ arr ∧ r.customer_asn ∉ aspa_removed_asns ops) ∨ r ∈ aspa_added_records ops)
  | [], arr, out, ops1, hs, _, h => by
    simp only [aspa_apply_ops, Prod.mk.injEq] at h
    obtain ⟨rfl, rfl, -⟩ := h
    refine ⟨hs, ?_⟩
    simp [aspa_removed_asns, aspa_added_records, aspa_surviving]
  | op :: rest, arr, out, ops1, hs, hps, h => by
    have htail : List.Pairwise aspa_op_lt (aspa_surviving rest) := aspa_surviving_tail op rest hps
    simp only [aspa_apply_ops] at h
    cases happ : aspa_apply_op arr op with
    | error s0 =>
      rw [happ] at h
      simp at h
    | ok p =>
      obtain ⟨arr1, op1⟩ := p
      rw [happ] at h
      simp only [Prod.mk.injEq] at h
      obtain ⟨h1, h2, h3⟩ := h
      cases hrec : aspa_apply_ops arr1 rest with
      | mk out2 q =>
        obtain ⟨ops2, fail2⟩ := q
        rw [hrec] at h1 h2 h3
        simp only at h1 h2 h3
        subst h1
        subst h3
        by_cases hno : op.is_no_op
        · rw [aspa_apply_op, if_pos hno] at happ
          simp only [Except.ok.injEq, Prod.mk.injEq] at happ
          obtain ⟨rfl, -⟩ := happ
          have ih := aspa_apply_ops_ok_spec rest arr out2 ops2 hs htail hrec
          rw [aspa_removed_asns_cons, aspa_added_records_cons, if_pos hno, if_pos hno]
          exact ih
        · have hnof : op.is_no_op = false := by simpa using hno
          have hbound := aspa_surviving_bound op rest hps hnof
          rw [aspa_apply_op, if_neg hno] at happ
          cases htype : op.type with
          | add =>
            rw [htype] at happ
            cases hsearch : aspa_array_search arr op.record.customer_asn with
            | some found =>
              rw [hsearch] at happ
              simp at happ
            | none =>
              rw [hsearch] at happ
              simp only [Except.ok.injEq, Prod.mk.injEq] at happ
              obtain ⟨rfl, -⟩ := happ
              have hfresh := (aspa_array_search_eq_none arr op.record.customer_asn).mp hsearch
              have hs1 := aspa_array_insert_sorted op.record arr hs hfresh
              obtain ⟨hsout, hmem⟩ := aspa_apply_ops_ok_spec rest _ out2 ops2 hs1 htail hrec
              have hremc : aspa_removed_asns (op :: rest) = aspa_removed_asns rest := by
                rw [aspa_removed_asns_cons, if_neg (by simp [hnof]),
                  if_neg (by simp [aspa_is_remove, htype])]
              have haddc : aspa_added_records (op :: rest) =
                  op.record :: aspa_added_records rest := by
                rw [aspa_added_records_cons, if_neg (by simp [hnof]),
                  if_pos (by simp [aspa_is_add, htype])]
              have hopnotrem : op.record.customer_asn ∉ aspa_removed_asns rest := by
                intro hmem2
                have := hbound.1 _ hmem2
                omega
              refine ⟨hsout, ?_⟩
              intro r
              rw [hremc, haddc, hmem r]
              rw [aspa_array_insert_mem]
              constructor
              · rintro (⟨rfl | hrarr, hrnot⟩ | hradd)
                · exact Or.inr (by simp)
                · exact Or.inl ⟨hrarr, hrnot⟩
                · exact Or.inr (List.mem_cons_of_mem _ hradd)
              · rintro (⟨hrarr, hrnot⟩ | hradd)
                · exact Or.inl ⟨Or.inr hrarr, hrnot⟩
                · rcases List.mem_cons.mp hradd with rfl | hr1
                  · exact Or.inl ⟨Or.inl rfl, hopnotrem⟩
                  · exact Or.inr hr1
          | remove =>
            rw [htype] at happ
            cases hsearch : aspa_array_search arr op.record.customer_asn with
            | none =>
              rw [hsearch] at happ
              simp at happ
            | some found =>
              rw [hsearch] at happ
              simp only [Except.ok.injEq, Prod.mk.injEq] at happ
              obtain ⟨rfl, -⟩ := happ
              have hs1 := aspa_array_remove_sorted op.record.customer_asn arr hs
              obtain ⟨hsout, hmem⟩ := aspa_apply_ops_ok_spec rest _ out2 ops2 hs1 htail hrec
              have hremc : aspa_removed_asns (op :: rest) =
                  op.record.customer_asn :: aspa_removed_asns rest := by
                rw [aspa_removed_asns_cons, if_neg (by simp [hnof]),
                  if_pos (by simp [aspa_is_remove, htype])]
              have haddc : aspa_added_records (op :: rest) = aspa_added_records rest := by
                rw [aspa_added_records_cons, if_neg (by simp [hnof]),
                  if_neg (by simp [aspa_is_add, htype])]
              refine ⟨hsout, ?_⟩
              intro r
              rw [hremc, haddc, hmem r]
              rw [aspa_array_remove_mem op.record.customer_asn arr hs]
              constructor
              · rintro (⟨⟨hrarr, hrne⟩, hrnot⟩ | hradd)
                · refine Or.inl ⟨hrarr, ?_⟩
                  intro hmem2
                  rcases List.mem_cons.mp hmem2 with heq2 | hmem3
                  · omega
                  · exact hrnot hmem3
                · exact Or.inr hradd
              · rintro (⟨hrarr, hrnot⟩ | hradd)
                · refine Or.inl ⟨⟨hrarr, ?_⟩, ?_⟩
                  · intro heq2
                    exact hrnot (by rw [heq2]; exact List.mem_cons_self _ _)
                  · intro hmem2
                    exact hrnot (List.mem_cons_of_mem _ hmem2)
                · exact Or.inr hradd

theorem aspa_apply_ops_fail_split :
    ∀ (ops : List aspa_update_operation) (arr out : aspa_array)
      (ops1 : List aspa_update_operation) (s : aspa_status) (f : aspa_update_operation),
      aspa_apply_ops arr ops = (out, ops1, some (s, f)) →
      ∃ pre post pre1, ops = pre ++ f :: post ∧
        aspa_apply_ops arr pre = (out, pre1, none) ∧
        aspa_apply_op out f = .error s ∧
        ops1 = pre1 ++ f :: post
  | [], arr, out, ops1, s, f, h => by
    simp [aspa_apply_ops] at h
  | op :: rest, arr, out, ops1, s, f, h => by
    simp only [aspa_apply_ops] at h
    cases happ : aspa_apply_op arr op with
    | error s0 =>
      rw [happ] at h
      simp only [Prod.mk.injEq] at h
      obtain ⟨rfl, rfl, h3⟩ := h
      obtain ⟨rfl, rfl⟩ : s0 = s ∧ op = f := by
        have := h3
        simp at this
        exact ⟨this.1, this.2⟩
      exact ⟨[], rest, [], rfl, rfl, happ, rfl⟩
    | ok p =>
      obtain ⟨arr1, op1⟩ := p
      rw [happ] at h
      simp only [Prod.mk.injEq] at h
      obtain ⟨h1, h2, h3⟩ := h
      cases hrec : aspa_apply_ops arr1 rest with
      | mk out2 q =>
        obtain ⟨ops2, fail2⟩ := q
        rw [hrec] at h1 h2 h3
        simp only at h1 h2 h3
        subst h1
        have ih := aspa_apply_ops_fail_split rest arr1 out2 ops2 s f (by rw [hrec, h3])
        obtain ⟨pre, post, pre1, hpre, happly, hfop, hops⟩ := ih
        refine ⟨op :: pre, post, op1 :: pre1, by simp [hpre], ?_, hfop,
          by rw [← h2, hops]; simp⟩
        simp only [aspa_apply_ops]
        rw [happ]
        simp [happly]

-- MARK: Pipeline conveniences

theorem aspa_canonical_surviving_sorted (ops c : List aspa_update_operation)
    (h : aspa_resolve_ops (aspa_sort_ops ops) = .ok c) :
    List.Pairwise aspa_op_lt (aspa_surviving c) :=
  aspa_resolve_ops_surviving_sorted (aspa_sort_ops ops) c (aspa_sort_ops_pairwise ops) h

theorem aspa_array_sorted_unique (arr : aspa_array) (hs : aspa_array_sorted arr)
    (r1 r2 : aspa_record) (h1 : r1 ∈ arr) (h2 : r2 ∈ arr)
    (heq : r1.customer_asn = r2.customer_asn) : r1 = r2 := by
  induction arr with
  | nil => simp at h1
  | cons h t ih =>
    rw [aspa_array_sorted, List.pairwise_cons] at hs
    rcases List.mem_cons.mp h1 with rfl | h1t
    · rcases List.mem_cons.mp h2 with rfl | h2t
      · rfl
      · have := hs.1 r2 h2t
        omega
    · rcases List.mem_cons.mp h2 with rfl | h2t
      · have := hs.1 r1 h1t
        omega
      · exact ih hs.2 h1t h2t

theorem aspa_dropWhile_head_not (arr : aspa_array) (k : Nat) (e : aspa_record)
    (es : aspa_array) (h : arr.dropWhile (fun x => x.customer_asn < k) = e :: es) :
    k ≤ e.customer_asn := by
  induction arr with
  | nil => simp at h
  | cons x xs ih =>
    rw [List.dropWhile_cons] at h
    by_cases hx : x.customer_asn < k
    · rw [if_pos (by simpa using hx)] at h
      exact ih h
    · rw [if_neg (by simpa using hx)] at h
      injection h with h1 h2
      subst h1
      omega

theorem aspa_pair_no_survivors (c : List aspa_update_operation) (a : Nat)
    (o1 o2 : aspa_update_operation)
    (hpair : c.filter (fun o => o.record.customer_asn == a) =
      [aspa_mark_no_op o1, aspa_mark_no_op o2]) :
    (∀ o ∈ aspa_surviving c, o.record.customer_asn ≠ a) ∧
    a ∉ aspa_removed_asns c ∧ ∀ r ∈ aspa_added_records c, r.customer_asn ≠ a := by
  have key : ∀ o ∈ aspa_surviving c, o.record.customer_asn ≠ a := by
    intro o ho hoa
    have hosurv := List.mem_filter.mp ho
    have honop : o.is_no_op = false := by simpa using hosurv.2
    have : o ∈ c.filter (fun o => o.record.customer_asn == a) :=
      List.mem_filter.mpr ⟨hosurv.1, by simp [hoa]⟩
    rw [hpair] at this
    rcases List.mem_cons.mp this with rfl | this2
    · rw [aspa_mark_no_op_is_no_op] at honop
      exact absurd honop (by simp)
    · rcases List.mem_cons.mp this2 with rfl | this3
      · rw [aspa_mark_no_op_is_no_op] at honop
        exact absurd honop (by simp)
      · simp at this3
  refine ⟨key, ?_, ?_⟩
  · intro hmem
    rcases List.mem_map.mp hmem with ⟨o, ho, hoeq⟩
    exact key o (List.mem_of_mem_filter ho) hoeq
  · intro r hr hra
    rcases List.mem_map.mp hr with ⟨o, ho, rfl⟩
    exact key o (List.mem_of_mem_filter ho) hra

-- MARK: Claim theorems

/-- C2: for every Table, connection and operation batch, running the swap-in
compute and then finish without apply leaves the Table's published Array for
every connection exactly equal to its state before compute; no change is
made to the published state between compute and finish unless apply is
invoked. -/
theorem aspa_swap_in_discard (t : aspa_table) (sock : Nat)
    (ops : List aspa_update_operation) (s : Nat) :
    aspa_store_get (aspa_table_compute_update t sock ops).1 s = aspa_store_get t s ∧
    aspa_store_get
      (aspa_table_update_finish (aspa_table_compute_update t sock ops).1
        (aspa_table_compute_update t sock ops).2.1) s = aspa_store_get t s := by
  simp only [aspa_table_update_finish]
  cases h : aspa_compute_internal (aspa_store_get t sock) ops with
  | ok p =>
    obtain ⟨c, arr⟩ := p
    simp [aspa_table_compute_update, h]
  | error e =>
    obtain ⟨st, f⟩ := e
    simp [aspa_table_compute_update, h]

theorem aspa_check_hop_eq_none (arr : aspa_array) (cas pas : Nat)
    (h : aspa_array_search arr cas = none) :
    aspa_check_hop arr cas pas = .no_attestation := by
  simp only [aspa_check_hop]
  rw [h]

theorem aspa_check_hop_eq_some (arr : aspa_array) (cas pas : Nat) (r0 : aspa_record)
    (h : aspa_array_search arr cas = some r0) :
    aspa_check_hop arr cas pas =
      if pas ∈ r0.provider_asns then .provider_plus else .not_provider_plus := by
  simp only [aspa_check_hop]
  rw [h]

/-- C7: for every Table whose relevant Array satisfies the sortedness
invariant, check_hop returns NO_ATTESTATION exactly when no record for the
customer ASN exists, NOT_PROVIDER_PLUS exactly when a record exists whose
provider set does not contain the provider ASN, and PROVIDER_PLUS exactly
when a record exists whose provider set contains it; in particular, on the
Array [{ASN 10, providers [100]}], check_hop(10,100) is PROVIDER_PLUS,
check_hop(10,999) is NOT_PROVIDER_PLUS, and check_hop(999,x) is
NO_ATTESTATION for every x. -/
theorem aspa_check_hop_correct (t : aspa_table) (sock : Nat) (cas pas : Nat)
    (hs : aspa_array_sorted (aspa_store_get t sock)) :
    (aspa_table_check_hop t sock cas pas = .no_attestation ↔
      ¬∃ r ∈ aspa_store_get t sock, r.customer_asn = cas) ∧
    (aspa_table_check_hop t sock cas pas = .not_provider_plus ↔
      ∃ r ∈ aspa_store_get t sock, r.customer_asn = cas ∧ pas ∉ r.provider_asns) ∧
    (aspa_table_check_hop t sock cas pas = .provider_plus ↔
      ∃ r ∈ aspa_store_get t sock, r.customer_asn = cas ∧ pas ∈ r.provider_asns) ∧
    aspa_check_hop [⟨10, [100]⟩] 10 100 = .provider_plus ∧
    aspa_check_hop [⟨10, [100]⟩] 10 999 = .not_provider_plus ∧
    ∀ x : Nat, aspa_check_hop [⟨10, [100]⟩] 999 x = .no_attestation := by
  simp only [aspa_table_check_hop]
  cases hsearch : aspa_array_search (aspa_store_get t sock) cas with
  | none =>
    have hno := (aspa_array_search_eq_none _ _).mp hsearch
    rw [aspa_check_hop_eq_none _ _ pas hsearch]
    refine ⟨?_, ?_, ?_, by decide, by decide, fun x => rfl⟩
    · constructor
      · rintro - ⟨r, hr, hrc⟩
        exact hno r hr hrc
      · intro _
        rfl
    · constructor
      · intro hcontra
        simp at hcontra
      · rintro ⟨r, hr, hrc, -⟩
        exact absurd hrc (hno r hr)
    · constructor
      · intro hcontra
        simp at hcontra
      · rintro ⟨r, hr, hrc, -⟩
        exact absurd hrc (hno r hr)
  | some r0 =>
    obtain ⟨hr0mem, hr0asn⟩ := aspa_array_search_eq_some _ _ _ hsearch
    rw [aspa_check_hop_eq_some _ _ pas _ hsearch]
    by_cases hpm : pas ∈ r0.provider_asns
    · rw [if_pos hpm]
      refine ⟨?_, ?_, ?_, by decide, by decide, fun x => rfl⟩
      · constructor
        · intro hcontra
          simp at hcontra
        · rintro hcontra
          exact absurd ⟨r0, hr0mem, hr0asn⟩ hcontra
      · constructor
        · intro hcontra
          simp at hcontra
        · rintro ⟨r, hr, hrc, hrnot⟩
          have : r = r0 := aspa_array_sorted_unique _ hs r r0 hr hr0mem (by omega)
          subst this
          exact absurd hpm hrnot
      · constructor
        · intro _
          exact ⟨r0, hr0mem, hr0asn, hpm⟩
        · intro _
          rfl
    · rw [if_neg hpm]
      refine ⟨?_, ?_, ?_, by decide, by decide, fun x => rfl⟩
      · constructor
        · intro hcontra
          simp at hcontra
        · rintro hcontra
          exact absurd ⟨r0, hr0mem, hr0asn⟩ hcontra
      · constructor
        · intro _
          exact ⟨r0, hr0mem, hr0asn, hpm⟩
        · intro _
          rfl
      · constructor
        · intro hcontra
          simp at hcontra
        · rintro ⟨r, hr, hrc, hrin⟩
          have : r = r0 := aspa_array_sorted_unique _ hs r r0 hr hr0mem (by omega)
          subst this
          exact absurd hrin hpm

/-- C7 witness: the theorem applied to the concrete single-record table. -/
theorem aspa_check_hop_correct_witness :
    aspa_array_sorted (aspa_store_get ⟨[(0, [⟨10, [100]⟩])]⟩ 0) ∧
    (aspa_table_check_hop ⟨[(0, [⟨10, [100]⟩])]⟩ 0 10 100 = .no_attestation ↔
      ¬∃ r ∈ aspa_store_get (⟨[(0, [⟨10, [100]⟩])]⟩ : aspa_table) 0, r.customer_asn = 10) ∧
    (aspa_table_check_hop ⟨[(0, [⟨10, [100]⟩])]⟩ 0 10 100 = .not_provider_plus ↔
      ∃ r ∈ aspa_store_get (⟨[(0, [⟨10, [100]⟩])]⟩ : aspa_table) 0,
        r.customer_asn = 10 ∧ 100 ∉ r.provider_asns) ∧
    (aspa_table_check_hop ⟨[(0, [⟨10, [100]⟩])]⟩ 0 10 100 = .provider_plus ↔
      ∃ r ∈ aspa_store_get (⟨[(0, [⟨10, [100]⟩])]⟩ : aspa_table) 0,
        r.customer_asn = 10 ∧ 100 ∈ r.provider_asns) ∧
    aspa_check_hop [⟨10, [100]⟩] 10 100 = .provider_plus ∧
    aspa_check_hop [⟨10, [100]⟩] 10 999 = .not_provider_plus ∧
    ∀ x : Nat, aspa_check_hop [⟨10, [100]⟩] 999 x = .no_attestation :=
  ⟨by decide, aspa_check_hop_correct ⟨[(0, [⟨10, [100]⟩])]⟩ 0 10 100 (by decide)⟩

/-- C8: the planner's sort by customer ASN is stable: for every batch, the
subsequence of operations sharing any customer ASN is unchanged by the sort,
and any two operations with equal customer ASN keep their original relative
order. -/
theorem aspa_planner_sort_stable (ops : List aspa_update_operation) (a : Nat) :
    ((aspa_sort_ops ops).filter (fun o => o.record.customer_asn == a) =
      ops.filter (fun o => o.record.customer_asn == a)) ∧
    ∀ o1 o2 : aspa_update_operation,
      o1.record.customer_asn = o2.record.customer_asn →
      [o1, o2].Sublist ops → [o1, o2].Sublist (aspa_sort_ops ops) := by
  refine ⟨aspa_sort_ops_filter_asn ops a, ?_⟩
  intro o1 o2 heq hsub
  exact List.pair_sublist_insertionSort (by unfold aspa_op_le; omega) hsub

/-- C8 witness: stability at a concrete batch with two operations on
ASN 5 separated by an operation on ASN 3. -/
theorem aspa_planner_sort_stable_witness :
    ((aspa_sort_ops [⟨0, .add, ⟨5, [1]⟩, false⟩, ⟨1, .add, ⟨3, []⟩, false⟩,
        ⟨2, .remove, ⟨5, []⟩, false⟩]).filter (fun o => o.record.customer_asn == 5) =
      ([⟨0, .add, ⟨5, [1]⟩, false⟩, ⟨1, .add, ⟨3, []⟩, false⟩,
        ⟨2, .remove, ⟨5, []⟩, false⟩] :
          List aspa_update_operation).filter (fun o => o.record.customer_asn == 5)) ∧
    [(⟨0, .add, ⟨5, [1]⟩, false⟩ : aspa_update_operation),
      ⟨2, .remove, ⟨5, []⟩, false⟩].Sublist
      (aspa_sort_ops [⟨0, .add, ⟨5, [1]⟩, false⟩, ⟨1, .add, ⟨3, []⟩, false⟩,
        ⟨2, .remove, ⟨5, []⟩, false⟩]) :=
  ⟨(aspa_planner_sort_stable _ 5).1,
    (aspa_planner_sort_stable _ 5).2 ⟨0, .add, ⟨5, [1]⟩, false⟩ ⟨2, .remove, ⟨5, []⟩, false⟩
      (by decide) (by decide)⟩

/-- C9: on the batch [ADD ASN 40, REMOVE ASN 40] the planner resolves the
complementary pair by computing and storing the derived is_no_op flag on
both operations; the operation structure (mirroring the C struct, which
declares no skip member despite its doc comment) carries only is_no_op, so
no skip flag can be or is stored. -/
theorem aspa_planner_flags :
    aspa_resolve_ops (aspa_sort_ops
        [⟨0, .add, ⟨40, []⟩, false⟩, ⟨1, .remove, ⟨40, []⟩, false⟩]) =
      .ok [⟨0, .add, ⟨40, []⟩, true⟩, ⟨1, .remove, ⟨40, []⟩, true⟩] := by decide

/-- C10: the in-place undo is itself partial: on a table whose array does
not contain the record an annotated add operation claims to have inserted,
undo returns RECORD_NOT_FOUND rather than SUCCESS, so a caller must check
its return value. -/
theorem aspa_undo_partial :
    (aspa_table_undo_update ⟨[(0, [])]⟩ 0 [⟨0, .add, ⟨10, []⟩, false⟩] none).2 =
      .record_not_found ∧
    (aspa_table_undo_update ⟨[(0, [])]⟩ 0 [⟨0, .add, ⟨10, []⟩, false⟩] none).2 ≠
      .success := by decide

/-- C4 counterexample: the claim quantifies over every batch containing two
ADDs with the same customer ASN (respectively a REMOVE on an absent ASN),
but an intervening complementary operation cancels: the batch
[ADD 30, REMOVE 30, ADD 30] plans successfully rather than failing with
DUPLICATE_RECORD, and the batch [ADD 50, REMOVE 50] against an Array with
no ASN 50 succeeds rather than failing with RECORD_NOT_FOUND. -/
theorem aspa_conflict_detection_cx :
    (aspa_compute_internal []
        [⟨0, .add, ⟨30, []⟩, false⟩, ⟨1, .remove, ⟨30, []⟩, false⟩,
          ⟨2, .add, ⟨30, [1]⟩, false⟩] =
      .ok ([⟨0, .add, ⟨30, []⟩, true⟩, ⟨1, .remove, ⟨30, []⟩, true⟩,
          ⟨2, .add, ⟨30, [1]⟩, false⟩],
        [⟨30, [1]⟩])) ∧
    (aspa_compute_internal []
        [⟨0, .add, ⟨50, [7]⟩, false⟩, ⟨1, .remove, ⟨50, []⟩, false⟩] =
      .ok ([⟨0, .add, ⟨50, [7]⟩, true⟩, ⟨1, .remove, ⟨50, []⟩, true⟩], [])) := by decide

/-- C4 (amended): for every existing Array and provider sets, the two-ADD
batch [ADD{c} at index 0, ADD{c} at index 1] fails planning with
DUPLICATE_RECORD identifying the second ADD (index 1); and for every
existing Array containing no record with ASN c, the batch [REMOVE{c}] fails
with RECORD_NOT_FOUND identifying index 0. -/
theorem aspa_conflict_detection (existing : aspa_array) (c : Nat) (ps1 ps2 : List Nat) :
    aspa_compute_internal existing
        [⟨0, .add, ⟨c, ps1⟩, false⟩, ⟨1, .add, ⟨c, ps2⟩, false⟩] =
      .error (.duplicate_record, ⟨1, .add, ⟨c, ps2⟩, false⟩) ∧
    ((∀ r ∈ existing, r.customer_asn ≠ c) →
      aspa_compute_internal existing [⟨0, .remove, ⟨c, []⟩, false⟩] =
        .error (.record_not_found, ⟨0, .remove, ⟨c, []⟩, false⟩)) := by
  constructor
  · have hsort : aspa_sort_ops [(⟨0, .add, ⟨c, ps1⟩, false⟩ : aspa_update_operation),
        ⟨1, .add, ⟨c, ps2⟩, false⟩] =
        [⟨0, .add, ⟨c, ps1⟩, false⟩, ⟨1, .add, ⟨c, ps2⟩, false⟩] := by
      simp [aspa_sort_ops, List.insertionSort, List.orderedInsert, aspa_op_le]
    have hres : aspa_resolve_ops (aspa_sort_ops [(⟨0, .add, ⟨c, ps1⟩, false⟩ :
        aspa_update_operation), ⟨1, .add, ⟨c, ps2⟩, false⟩]) =
        .error (.duplicate_record, ⟨1, .add, ⟨c, ps2⟩, false⟩) := by
      rw [hsort]
      simp [aspa_resolve_ops]
    simp only [aspa_compute_internal]
    rw [hres]
  · intro hnotin
    have hres : aspa_resolve_ops (aspa_sort_ops [(⟨0, .remove, ⟨c, []⟩, false⟩ :
        aspa_update_operation)]) = .ok [⟨0, .remove, ⟨c, []⟩, false⟩] := rfl
    have hmerge : aspa_merge existing [(⟨0, .remove, ⟨c, []⟩, false⟩ :
        aspa_update_operation)] =
        .error (.record_not_found, ⟨0, .remove, ⟨c, []⟩, false⟩) := by
      simp only [aspa_merge]
      cases hdrop : existing.dropWhile (fun e => e.customer_asn < c) with
      | nil => rfl
      | cons e es =>
        have hmem : e ∈ existing :=
          (List.dropWhile_sublist _).subset (hdrop ▸ List.mem_cons_self e es)
        simp [hnotin e hmem]
    simp only [aspa_compute_internal]
    rw [hres]
    simp [hmerge]

/-- C4 witness: the duplicate-ADD half applied to the Array [{50,[3]}],
which already contains ASN 50, and the REMOVE half applied to the Array
[{10,[100]}], which contains no ASN 50. -/
theorem aspa_conflict_detection_witness :
    (aspa_compute_internal [⟨50, [3]⟩]
        [⟨0, .add, ⟨50, [1]⟩, false⟩, ⟨1, .add, ⟨50, [2]⟩, false⟩] =
      .error (.duplicate_record, ⟨1, .add, ⟨50, [2]⟩, false⟩)) ∧
    (∀ r ∈ ([⟨10, [100]⟩] : aspa_array), r.customer_asn ≠ 50) ∧
    (aspa_compute_internal [⟨10, [100]⟩] [⟨0, .remove, ⟨50, []⟩, false⟩] =
      .error (.record_not_found, ⟨0, .remove, ⟨50, []⟩, false⟩)) :=
  ⟨(aspa_conflict_detection [⟨50, [3]⟩] 50 [1] [2]).1, by decide,
    (aspa_conflict_detection [⟨10, [100]⟩] 50 [1] [2]).2 (by decide)⟩

theorem aspa_table_update_eval_planfail (t : aspa_table) (sock : Nat)
    (ops : List aspa_update_operation) (s0 : aspa_status) (f0 : aspa_update_operation)
    (hres : aspa_resolve_ops (aspa_sort_ops ops) = .error (s0, f0)) :
    aspa_table_update t sock ops = (t, aspa_sort_ops ops, s0, some f0) := by
  simp only [aspa_table_update]
  rw [hres]

theorem aspa_table_update_eval_fail (t : aspa_table) (sock : Nat)
    (ops canon : List aspa_update_operation) (out2 : aspa_array)
    (ops2 : List aspa_update_operation) (s0 : aspa_status) (f0 : aspa_update_operation)
    (hres : aspa_resolve_ops (aspa_sort_ops ops) = .ok canon)
    (happly : aspa_apply_ops (aspa_store_get t sock) canon = (out2, ops2, some (s0, f0))) :
    aspa_table_update t sock ops = (aspa_store_set t sock out2, ops2, s0, some f0) := by
  simp only [aspa_table_update]
  rw [hres]
  simp [happly]

theorem aspa_table_update_eval_ok (t : aspa_table) (sock : Nat)
    (ops canon : List aspa_update_operation) (out2 : aspa_array)
    (ops2 : List aspa_update_operation)
    (hres : aspa_resolve_ops (aspa_sort_ops ops) = .ok canon)
    (happly : aspa_apply_ops (aspa_store_get t sock) canon = (out2, ops2, none)) :
    aspa_table_update t sock ops = (aspa_store_set t sock out2, ops2, .success, none) := by
  simp only [aspa_table_update]
  rw [hres]
  simp [happly]

/-- C6: for every in-place update that fails, the update stops at the
failing operation, records it in the failed_operation out-parameter and
returns that operation's error code: either planning failed (and the table
is untouched), or the canonical sequence splits as pre ++ failing :: post,
the published array is exactly the result of applying only the prefix, and
the failing operation errors on that array -- operations after the failure
point have no effect. -/
theorem aspa_inplace_first_failure (t : aspa_table) (sock : Nat)
    (ops : List aspa_update_operation) (t1 : aspa_table)
    (ops1 : List aspa_update_operation) (st : aspa_status)
    (fo : Option aspa_update_operation)
    (h : aspa_table_update t sock ops = (t1, ops1, st, fo))
    (hfail : st ≠ .success) :
    ∃ f, fo = some f ∧
      ((aspa_resolve_ops (aspa_sort_ops ops) = .error (st, f) ∧
        ∀ s, aspa_store_get t1 s = aspa_store_get t s) ∨
       (∃ canon pre post pre1,
          aspa_resolve_ops (aspa_sort_ops ops) = .ok canon ∧
          canon = pre ++ f :: post ∧
          aspa_apply_ops (aspa_store_get t sock) pre =
            (aspa_store_get t1 sock, pre1, none) ∧
          aspa_apply_op (aspa_store_get t1 sock) f = .error st ∧
          ∀ s, s ≠ sock → aspa_store_get t1 s = aspa_store_get t s)) := by
  rcases hres : aspa_resolve_ops (aspa_sort_ops ops) with ⟨s0, f0⟩ | canon
  · rw [aspa_table_update_eval_planfail t sock ops s0 f0 hres] at h
    simp only [Prod.mk.injEq] at h
    obtain ⟨rfl, -, rfl, rfl⟩ := h
    exact ⟨f0, rfl, Or.inl ⟨rfl, fun s => rfl⟩⟩
  · rcases happly : aspa_apply_ops (aspa_store_get t sock) canon with ⟨out2, ops2, fail2⟩
    cases fail2 with
    | none =>
      rw [aspa_table_update_eval_ok t sock ops canon out2 ops2 hres happly] at h
      simp only [Prod.mk.injEq] at h
      obtain ⟨-, -, rfl, -⟩ := h
      exact absurd rfl hfail
    | some sf =>
      obtain ⟨s0, f0⟩ := sf
      rw [aspa_table_update_eval_fail t sock ops canon out2 ops2 s0 f0 hres happly] at h
      simp only [Prod.mk.injEq] at h
      obtain ⟨rfl, -, rfl, rfl⟩ := h
      obtain ⟨pre, post, pre1, hpre, happre, hfop, -⟩ :=
        aspa_apply_ops_fail_split canon (aspa_store_get t sock) out2 ops2 s0 f0 happly
      refine ⟨f0, rfl, Or.inr ⟨canon, pre, post, pre1, rfl, hpre, ?_, ?_, ?_⟩⟩
      · rw [aspa_store_get_set_self]
        exact happre
      · rw [aspa_store_get_set_self]
        exact hfop
      · intro s hsne
        exact aspa_store_get_set_ne t sock s out2 hsne

/-- C6 witness: the batch [REMOVE 50] against an empty table fails with
RECORD_NOT_FOUND at that operation with no prior effect. -/
theorem aspa_inplace_first_failure_witness :
    (aspa_table_update ⟨[]⟩ 0 [⟨0, .remove, ⟨50, []⟩, false⟩] =
      (⟨[(0, [])]⟩, [⟨0, .remove, ⟨50, []⟩, false⟩], .record_not_found,
        some ⟨0, .remove, ⟨50, []⟩, false⟩)) ∧
    aspa_status.record_not_found ≠ .success ∧
    (∃ f, (some (⟨0, .remove, ⟨50, []⟩, false⟩ : aspa_update_operation)) = some f ∧
      ((aspa_resolve_ops (aspa_sort_ops [⟨0, .remove, ⟨50, []⟩, false⟩]) =
          .error (.record_not_found, f) ∧
        ∀ s, aspa_store_get ⟨[(0, [])]⟩ s = aspa_store_get ⟨[]⟩ s) ∨
       (∃ canon pre post pre1,
          aspa_resolve_ops (aspa_sort_ops [⟨0, .remove, ⟨50, []⟩, false⟩]) = .ok canon ∧
          canon = pre ++ f :: post ∧
          aspa_apply_ops (aspa_store_get ⟨[]⟩ 0) pre =
            (aspa_store_get ⟨[(0, [])]⟩ 0, pre1, none) ∧
          aspa_apply_op (aspa_store_get ⟨[(0, [])]⟩ 0) f = .error .record_not_found ∧
          ∀ s, s ≠ 0 → aspa_store_get ⟨[(0, [])]⟩ s = aspa_store_get ⟨[]⟩ s))) :=
  ⟨by decide, by decide,
    aspa_inplace_first_failure ⟨[]⟩ 0 [⟨0, .remove, ⟨50, []⟩, false⟩] ⟨[(0, [])]⟩
      [⟨0, .remove, ⟨50, []⟩, false⟩] .record_not_found
      (some ⟨0, .remove, ⟨50, []⟩, false⟩) (by decide) (by decide)⟩

/-- C3: for every table whose array satisfies the sortedness invariant and
every batch on which the in-place update returns SUCCESS, calling undo
afterwards with no failing operation restores the published array of every
connection to exactly its content before the update, and undo itself
returns SUCCESS. -/
theorem aspa_inplace_undo_roundtrip (t : aspa_table) (sock : Nat)
    (ops : List aspa_update_operation) (t1 : aspa_table)
    (ops1 : List aspa_update_operation)
    (hs : aspa_array_sorted (aspa_store_get t sock))
    (h : aspa_table_update t sock ops = (t1, ops1, .success, none)) :
    (aspa_table_undo_update t1 sock ops1 none).2 = .success ∧
    ∀ s, aspa_store_get (aspa_table_undo_update t1 sock ops1 none).1 s =
      aspa_store_get t s := by
  rcases hres : aspa_resolve_ops (aspa_sort_ops ops) with ⟨s0, f0⟩ | canon
  · rw [aspa_table_update_eval_planfail t sock ops s0 f0 hres] at h
    simp at h
  · rcases happly : aspa_apply_ops (aspa_store_get t sock) canon with ⟨out2, ops2, fail2⟩
    cases fail2 with
    | some sf =>
      obtain ⟨s0, f0⟩ := sf
      rw [aspa_table_update_eval_fail t sock ops canon out2 ops2 s0 f0 hres happly] at h
      simp at h
    | none =>
      rw [aspa_table_update_eval_ok t sock ops canon out2 ops2 hres happly] at h
      simp only [Prod.mk.injEq] at h
      obtain ⟨rfl, rfl, -, -⟩ := h
      have hundo := aspa_apply_ops_undo canon (aspa_store_get t sock) out2 ops2 hs happly
      have haux : aspa_table_undo_update (aspa_store_set t sock out2) sock ops2 none =
          (aspa_store_set (aspa_store_set t sock out2) sock (aspa_store_get t sock),
            .success) := by
        simp only [aspa_table_undo_update, aspa_undo_scope]
        rw [aspa_store_get_set_self, hundo]
      rw [haux]
      refine ⟨rfl, ?_⟩
      intro s
      by_cases hss : s = sock
      · subst hss
        rw [aspa_store_get_set_self]
      · rw [aspa_store_get_set_ne _ _ _ _ hss, aspa_store_get_set_ne _ _ _ _ hss]

/-- C3 witness: the batch [ADD 20, REMOVE 10] against the array
[{10,[100]}] succeeds in place and undo restores the original table. -/
theorem aspa_inplace_undo_roundtrip_witness :
    aspa_array_sorted (aspa_store_get ⟨[(0, [⟨10, [100]⟩])]⟩ 0) ∧
    (aspa_table_update ⟨[(0, [⟨10, [100]⟩])]⟩ 0
        [⟨0, .add, ⟨20, [200]⟩, false⟩, ⟨1, .remove, ⟨10, []⟩, false⟩] =
      (⟨[(0, [⟨20, [200]⟩])]⟩,
        [⟨1, .remove, ⟨10, [100]⟩, false⟩, ⟨0, .add, ⟨20, [200]⟩, false⟩],
        .success, none)) ∧
    ((aspa_table_undo_update ⟨[(0, [⟨20, [200]⟩])]⟩ 0
        [⟨1, .remove, ⟨10, [100]⟩, false⟩, ⟨0, .add, ⟨20, [200]⟩, false⟩] none).2 =
      .success ∧
    ∀ s, aspa_store_get (aspa_table_undo_update ⟨[(0, [⟨20, [200]⟩])]⟩ 0
        [⟨1, .remove, ⟨10, [100]⟩, false⟩, ⟨0, .add, ⟨20, [200]⟩, false⟩] none).1 s =
      aspa_store_get ⟨[(0, [⟨10, [100]⟩])]⟩ s) :=
  ⟨by decide, by decide,
    aspa_inplace_undo_roundtrip ⟨[(0, [⟨10, [100]⟩])]⟩ 0
      [⟨0, .add, ⟨20, [200]⟩, false⟩, ⟨1, .remove, ⟨10, []⟩, false⟩]
      ⟨[(0, [⟨20, [200]⟩])]⟩
      [⟨1, .remove, ⟨10, [100]⟩, false⟩, ⟨0, .add, ⟨20, [200]⟩, false⟩]
      (by decide) (by decide)⟩

theorem aspa_compute_internal_eval_planfail (existing : aspa_array)
    (ops : List aspa_update_operation) (s0 : aspa_status) (f0 : aspa_update_operation)
    (h1 : aspa_resolve_ops (aspa_sort_ops ops) = .error (s0, f0)) :
    aspa_compute_internal existing ops = .error (s0, f0) := by
  simp only [aspa_compute_internal]
  rw [h1]

theorem aspa_compute_internal_eval_mergefail (existing : aspa_array)
    (ops canon : List aspa_update_operation) (s0 : aspa_status) (f0 : aspa_update_operation)
    (h1 : aspa_resolve_ops (aspa_sort_ops ops) = .ok canon)
    (h2 : aspa_merge existing canon = .error (s0, f0)) :
    aspa_compute_internal existing ops = .error (s0, f0) := by
  simp only [aspa_compute_internal]
  rw [h1]
  simp [h2]

theorem aspa_compute_internal_eval_ok (existing : aspa_array)
    (ops canon : List aspa_update_operation) (arr : aspa_array)
    (h1 : aspa_resolve_ops (aspa_sort_ops ops) = .ok canon)
    (h2 : aspa_merge existing canon = .ok arr) :
    aspa_compute_internal existing ops = .ok (canon, arr) := by
  simp only [aspa_compute_internal]
  rw [h1]
  simp [h2]

/-- C1: for every existing Array satisfying the sortedness invariant and
every batch on which an update succeeds -- under the swap-in strategy
(compute) or the in-place strategy (update) -- the resulting published
Array satisfies the merge specification: it is strictly sorted and unique
by customer ASN and holds exactly the existing records whose ASN no
surviving REMOVE targets together with the records of the surviving ADDs
(those not cancelled as no-op pairs); moreover it is the unique such array,
so the result equals the existing Array with the removed records deleted
and the surviving added records inserted. -/
theorem aspa_update_merge_correct (t : aspa_table) (sock : Nat)
    (ops : List aspa_update_operation)
    (hs : aspa_array_sorted (aspa_store_get t sock)) :
    (∀ c out, aspa_compute_internal (aspa_store_get t sock) ops = .ok (c, out) →
      aspa_merge_result_spec (aspa_store_get t sock) c out ∧
      ∀ out2, aspa_merge_result_spec (aspa_store_get t sock) c out2 → out2 = out) ∧
    (∀ t1 ops1, aspa_table_update t sock ops = (t1, ops1, .success, none) →
      ∃ c, aspa_resolve_ops (aspa_sort_ops ops) = .ok c ∧
        aspa_merge_result_spec (aspa_store_get t sock) c (aspa_store_get t1 sock) ∧
        ∀ out2, aspa_merge_result_spec (aspa_store_get t sock) c out2 →
          out2 = aspa_store_get t1 sock) := by
  constructor
  · intro c out h
    rcases hres : aspa_resolve_ops (aspa_sort_ops ops) with ⟨s0, f0⟩ | c0
    · rw [aspa_compute_internal_eval_planfail _ ops s0 f0 hres] at h
      simp at h
    · rcases hmerge : aspa_merge (aspa_store_get t sock) c0 with ⟨s0, f0⟩ | arr0
      · rw [aspa_compute_internal_eval_mergefail _ ops c0 s0 f0 hres hmerge] at h
        simp at h
      · rw [aspa_compute_internal_eval_ok _ ops c0 arr0 hres hmerge] at h
        simp only [Except.ok.injEq, Prod.mk.injEq] at h
        obtain ⟨rfl, rfl⟩ := h
        obtain ⟨hms, -, hmmem⟩ := aspa_merge_ok_spec c0 (aspa_store_get t sock) arr0 hs
          (aspa_canonical_surviving_sorted ops c0 hres) hmerge
        refine ⟨⟨hms, hmmem⟩, ?_⟩
        rintro out2 ⟨hsort2, hmem2⟩
        exact aspa_array_sorted_ext out2 arr0 hsort2 hms
          (fun r => (hmem2 r).trans (hmmem r).symm)
  · intro t1 ops1 h
    rcases hres : aspa_resolve_ops (aspa_sort_ops ops) with ⟨s0, f0⟩ | canon
    · rw [aspa_table_update_eval_planfail t sock ops s0 f0 hres] at h
      simp at h
    · rcases happly : aspa_apply_ops (aspa_store_get t sock) canon with ⟨out2, ops2, fail2⟩
      cases fail2 with
      | some sf =>
        obtain ⟨s0, f0⟩ := sf
        rw [aspa_table_update_eval_fail t sock ops canon out2 ops2 s0 f0 hres happly] at h
        simp at h
      | none =>
        rw [aspa_table_update_eval_ok t sock ops canon out2 ops2 hres happly] at h
        simp only [Prod.mk.injEq] at h
        obtain ⟨rfl, -, -, -⟩ := h
        obtain ⟨hsout, hmem⟩ := aspa_apply_ops_ok_spec canon (aspa_store_get t sock) out2
          ops2 hs (aspa_canonical_surviving_sorted ops canon hres) happly
        rw [aspa_store_get_set_self]
        refine ⟨canon, rfl, ⟨hsout, hmem⟩, ?_⟩
        rintro outx ⟨hsortx, hmemx⟩
        exact aspa_array_sorted_ext outx out2 hsortx hsout
          (fun r => (hmemx r).trans (hmem r).symm)

/-- C1 witness: the batch [ADD 20 with providers [200]] against the Array
[{10,[100]}], under both strategies. -/
theorem aspa_update_merge_correct_witness :
    aspa_array_sorted (aspa_store_get ⟨[(0, [⟨10, [100]⟩])]⟩ 0) ∧
    ((∀ c out, aspa_compute_internal
          (aspa_store_get ⟨[(0, [⟨10, [100]⟩])]⟩ 0) [⟨0, .add, ⟨20, [200]⟩, false⟩] =
            .ok (c, out) →
      aspa_merge_result_spec (aspa_store_get ⟨[(0, [⟨10, [100]⟩])]⟩ 0) c out ∧
      ∀ out2, aspa_merge_result_spec (aspa_store_get ⟨[(0, [⟨10, [100]⟩])]⟩ 0) c out2 →
        out2 = out) ∧
    (∀ t1 ops1, aspa_table_update ⟨[(0, [⟨10, [100]⟩])]⟩ 0
          [⟨0, .add, ⟨20, [200]⟩, false⟩] = (t1, ops1, .success, none) →
      ∃ c, aspa_resolve_ops (aspa_sort_ops [⟨0, .add, ⟨20, [200]⟩, false⟩]) = .ok c ∧
        aspa_merge_result_spec (aspa_store_get ⟨[(0, [⟨10, [100]⟩])]⟩ 0) c
          (aspa_store_get t1 0) ∧
        ∀ out2, aspa_merge_result_spec (aspa_store_get ⟨[(0, [⟨10, [100]⟩])]⟩ 0) c out2 →
          out2 = aspa_store_get t1 0)) :=
  ⟨by decide,
    aspa_update_merge_correct ⟨[(0, [⟨10, [100]⟩])]⟩ 0 [⟨0, .add, ⟨20, [200]⟩, false⟩]
      (by decide)⟩

theorem aspa_filter_eq_of_spec (existing outA : aspa_array)
    (c0 : List aspa_update_operation) (a : Nat)
    (hs : aspa_array_sorted existing) (hsout : aspa_array_sorted outA)
    (hmem : ∀ r : aspa_record, r ∈ outA ↔
      ((r ∈ existing ∧ r.customer_asn ∉ aspa_removed_asns c0) ∨
        r ∈ aspa_added_records c0))
    (hnorem : a ∉ aspa_removed_asns c0)
    (hnoadd : ∀ r ∈ aspa_added_records c0, r.customer_asn ≠ a) :
    outA.filter (fun r => r.customer_asn == a) =
      existing.filter (fun r => r.customer_asn == a) := by
  apply aspa_array_sorted_ext
  · exact List.Pairwise.sublist (List.filter_sublist _) hsout
  · exact List.Pairwise.sublist (List.filter_sublist _) hs
  · intro r
    simp only [List.mem_filter, beq_iff_eq]
    constructor
    · rintro ⟨hrout, hra⟩
      rcases (hmem r).mp hrout with ⟨hrin, -⟩ | hradd
      · exact ⟨hrin, hra⟩
      · exact absurd hra (hnoadd r hradd)
    · rintro ⟨hrin, hra⟩
      refine ⟨(hmem r).mpr (Or.inl ⟨hrin, ?_⟩), hra⟩
      rw [hra]
      exact hnorem

/-- C5 counterexample: the claim asserts that every batch containing a
complementary ADD/REMOVE pair succeeds, but a failing operation elsewhere
in the batch fails the whole update: [ADD 40, REMOVE 40, REMOVE 50] against
the empty Array returns RECORD_NOT_FOUND, not SUCCESS. -/
theorem aspa_complementary_cancellation_cx :
    aspa_compute_internal []
        [⟨0, .add, ⟨40, []⟩, false⟩, ⟨1, .remove, ⟨40, []⟩, false⟩,
          ⟨2, .remove, ⟨50, []⟩, false⟩] =
      .error (.record_not_found, ⟨2, .remove, ⟨50, []⟩, false⟩) := by decide

/-- C5 (amended): for every batch containing an ADD and a REMOVE for the
same customer ASN (in either order) and no other operation on that ASN, if
the update succeeds (the pair itself never fails, but other operations in
the batch may) then the Array's record set for that ASN is unchanged --
under both strategies -- and the Dispatcher emits no event for that ASN
when no-op notification is disabled and emits both the add and the remove
event (in batch order) when it is enabled. -/
theorem aspa_complementary_cancellation (t : aspa_table) (sock : Nat)
    (ops : List aspa_update_operation) (a : Nat) (o1 o2 : aspa_update_operation)
    (hs : aspa_array_sorted (aspa_store_get t sock))
    (hfa : ops.filter (fun o => o.record.customer_asn == a) = [o1, o2])
    (hty : o1.type ≠ o2.type) :
    (∀ c out, aspa_compute_internal (aspa_store_get t sock) ops = .ok (c, out) →
      out.filter (fun r => r.customer_asn == a) =
        (aspa_store_get t sock).filter (fun r => r.customer_asn == a) ∧
      (aspa_notifications c false).filter (fun e => e.record.customer_asn == a) = [] ∧
      (aspa_notifications c true).filter (fun e => e.record.customer_asn == a) =
        [⟨o1.type, o1.record⟩, ⟨o2.type, o2.record⟩]) ∧
    (∀ t1 ops1, aspa_table_update t sock ops = (t1, ops1, .success, none) →
      (aspa_store_get t1 sock).filter (fun r => r.customer_asn == a) =
        (aspa_store_get t sock).filter (fun r => r.customer_asn == a)) := by
  have hfa2 : (aspa_sort_ops ops).filter (fun o => o.record.customer_asn == a) =
      [o1, o2] := by
    rw [aspa_sort_ops_filter_asn]
    exact hfa
  constructor
  · intro c out h
    rcases hres : aspa_resolve_ops (aspa_sort_ops ops) with ⟨s0, f0⟩ | c0
    · rw [aspa_compute_internal_eval_planfail _ ops s0 f0 hres] at h
      simp at h
    · rcases hmerge : aspa_merge (aspa_store_get t sock) c0 with ⟨s0, f0⟩ | arr0
      · rw [aspa_compute_internal_eval_mergefail _ ops c0 s0 f0 hres hmerge] at h
        simp at h
      · rw [aspa_compute_internal_eval_ok _ ops c0 arr0 hres hmerge] at h
        simp only [Except.ok.injEq, Prod.mk.injEq] at h
        obtain ⟨rfl, rfl⟩ := h
        have hpairc := aspa_resolve_ops_pair (aspa_sort_ops ops) c0 a o1 o2
          (aspa_sort_ops_pairwise ops) hfa2 hty hres
        obtain ⟨hsurv, hnorem, hnoadd⟩ := aspa_pair_no_survivors c0 a o1 o2 hpairc
        obtain ⟨hms, -, hmmem⟩ := aspa_merge_ok_spec c0 (aspa_store_get t sock) arr0 hs
          (aspa_canonical_surviving_sorted ops c0 hres) hmerge
        refine ⟨aspa_filter_eq_of_spec _ _ c0 a hs hms hmmem hnorem hnoadd, ?_, ?_⟩
        · rw [List.filter_eq_nil_iff]
          intro e he
          simp only [aspa_notifications, Bool.or_false] at he
          rcases List.mem_map.mp he with ⟨o, homem, rfl⟩
          obtain ⟨hoc, hq⟩ := List.mem_filter.mp homem
          have hosurv : o ∈ aspa_surviving c0 := List.mem_filter.mpr ⟨hoc, hq⟩
          simpa using hsurv o hosurv
        · have hnotif : aspa_notifications c0 true =
              c0.map (fun o => (⟨o.type, o.record⟩ : aspa_event)) := by
            simp [aspa_notifications]
          have hfc : (List.filter ((fun e : aspa_event => e.record.customer_asn == a) ∘
              fun o : aspa_update_operation => (⟨o.type, o.record⟩ : aspa_event)) c0) =
              List.filter (fun o => o.record.customer_asn == a) c0 :=
            List.filter_congr (fun o _ => rfl)
          rw [hnotif, List.filter_map, hfc, hpairc]
          rfl
  · intro t1 ops1 h
    rcases hres : aspa_resolve_ops (aspa_sort_ops ops) with ⟨s0, f0⟩ | canon
    · rw [aspa_table_update_eval_planfail t sock ops s0 f0 hres] at h
      simp at h
    · rcases happly : aspa_apply_ops (aspa_store_get t sock) canon with ⟨out2, ops2, fail2⟩
      cases fail2 with
      | some sf =>
        obtain ⟨s0, f0⟩ := sf
        rw [aspa_table_update_eval_fail t sock ops canon out2 ops2 s0 f0 hres happly] at h
        simp at h
      | none =>
        rw [aspa_table_update_eval_ok t sock ops canon out2 ops2 hres happly] at h
        simp only [Prod.mk.injEq] at h
        obtain ⟨rfl, -, -, -⟩ := h
        have hpairc := aspa_resolve_ops_pair (aspa_sort_ops ops) canon a o1 o2
          (aspa_sort_ops_pairwise ops) hfa2 hty hres
        obtain ⟨-, hnorem, hnoadd⟩ := aspa_pair_no_survivors canon a o1 o2 hpairc
        obtain ⟨hsout, hmem⟩ := aspa_apply_ops_ok_spec canon (aspa_store_get t sock) out2
          ops2 hs (aspa_canonical_surviving_sorted ops canon hres) happly
        rw [aspa_store_get_set_self]
        exact aspa_filter_eq_of_spec _ _ canon a hs hsout hmem hnorem hnoadd

/-- C5 witness: the batch [ADD 40 with providers [9], REMOVE 40] against
the Array [{40,[7]}]. -/
theorem aspa_complementary_cancellation_witness :
    aspa_array_sorted (aspa_store_get ⟨[(0, [⟨40, [7]⟩])]⟩ 0) ∧
    (([⟨0, .add, ⟨40, [9]⟩, false⟩, ⟨1, .remove, ⟨40, []⟩, false⟩] :
        List aspa_update_operation).filter (fun o => o.record.customer_asn == 40) =
      [⟨0, .add, ⟨40, [9]⟩, false⟩, ⟨1, .remove, ⟨40, []⟩, false⟩]) ∧
    aspa_operation_type.add ≠ aspa_operation_type.remove ∧
    ((∀ c out, aspa_compute_internal (aspa_store_get ⟨[(0, [⟨40, [7]⟩])]⟩ 0)
          [⟨0, .add, ⟨40, [9]⟩, false⟩, ⟨1, .remove, ⟨40, []⟩, false⟩] = .ok (c, out) →
      out.filter (fun r => r.customer_asn == 40) =
        (aspa_store_get ⟨[(0, [⟨40, [7]⟩])]⟩ 0).filter (fun r => r.customer_asn == 40) ∧
      (aspa_notifications c false).filter (fun e => e.record.customer_asn == 40) = [] ∧
      (aspa_notifications c true).filter (fun e => e.record.customer_asn == 40) =
        [⟨.add, ⟨40, [9]⟩⟩, ⟨.remove, ⟨40, []⟩⟩]) ∧
    (∀ t1 ops1, aspa_table_update ⟨[(0, [⟨40, [7]⟩])]⟩ 0
          [⟨0, .add, ⟨40, [9]⟩, false⟩, ⟨1, .remove, ⟨40, []⟩, false⟩] =
        (t1, ops1, .success, none) →
      (aspa_store_get t1 0).filter (fun r => r.customer_asn == 40) =
        (aspa_store_get ⟨[(0, [⟨40, [7]⟩])]⟩ 0).filter (fun r => r.customer_asn == 40))) :=
  ⟨by decide, by decide, by decide,
    aspa_complementary_cancellation ⟨[(0, [⟨40, [7]⟩])]⟩ 0
      [⟨0, .add, ⟨40, [9]⟩, false⟩, ⟨1, .remove, ⟨40, []⟩, false⟩] 40
      ⟨0, .add, ⟨40, [9]⟩, false⟩ ⟨1, .remove, ⟨40, []⟩, false⟩
      (by decide) (by decide) (by decide)⟩
